import Mathlib

/-!
Verification development for the schema-inference engine of the
ddl-generator repository (modules `typehelpers.py`, `reshape.py` and the
column-profiling part of `ddlgenerator.py`).

The Python code is shallowly embedded: Python strings are lists of
characters, `decimal.Decimal` is a sign/digit-list/exponent structure
mirroring `Decimal.as_tuple()`, `datetime.datetime` is a record of six
fields (microseconds are not modelled), Python `float` is modelled as an
exact rational (only its existence, ordering and printed form matter to
the verified properties, and no verified property depends on binary
rounding), and fallible Python code returns `Except PyErr`.  The external
`dateutil.parser.parse` collaborator and the current date are passed as
parameters (`parse`, `today`), since they are third-party inputs of the
engine. Unicode-only behaviours (non-ASCII digits, locale case folding)
are outside the model: character classes are ASCII, as in the data the
tool targets.
-/

set_option autoImplicit false

namespace DDLGen

/-- Python strings, modelled as lists of characters. -/
abbrev PyStr := List Char

/-- Coerce a Lean string literal to the model string type. -/
def pyS (s : String) : PyStr := s.data

/-- ASCII whitespace recognised by `str.strip()`. -/
def isPyWs (c : Char) : Bool :=
  c = ' ' || c = '\t' || c = '\n' || c = '\x0b' || c = '\x0c' || c = '\r'

/-- Python `str.strip()` (whitespace on both ends). -/
def stripWs (s : PyStr) : PyStr :=
  ((s.dropWhile isPyWs).reverse.dropWhile isPyWs).reverse

/-- Python `str.lstrip(c)` for a single strip character. -/
def lstripChar (c : Char) (s : PyStr) : PyStr := s.dropWhile (· = c)

/-- Python `str.rstrip(c)` for a single strip character. -/
def rstripChar (c : Char) (s : PyStr) : PyStr :=
  (s.reverse.dropWhile (· = c)).reverse

/-- Python `str.strip(c)` for a single strip character (both ends). -/
def stripChar (c : Char) (s : PyStr) : PyStr := rstripChar c (lstripChar c s)

/-- The separator class of `typehelpers._complex_enough_to_be_date`,
the regular expression `[\-\. /]`. -/
def isSepChar (c : Char) : Bool := c = '-' || c = '.' || c = ' ' || c = '/'

/-- Number of matches of `_complex_enough_to_be_date.findall`. -/
def sepCount (s : PyStr) : Nat := (s.filter isSepChar).length

/-- ASCII decimal digit. -/
def isAsciiDigit (c : Char) : Bool := '0' ≤ c && c ≤ '9'

/-- Whether `typehelpers._digits_only` (`^\d+$`) matches the whole string:
a nonempty run of digits. -/
def isDigitRun (s : PyStr) : Bool := !s.isEmpty && s.all isAsciiDigit

/-- Python `str.ljust(width, "0")`: pad on the right with zeroes. -/
def ljustZero (s : PyStr) (width : Nat) : PyStr :=
  s ++ List.replicate (width - s.length) '0'

/-- Base-10 digits, most significant first, with a structural fuel
argument (the fuel `n + 1` always suffices, since each step divides the
argument by ten). -/
def natDigitsAux : Nat → Nat → List Nat
  | 0, _ => []
  | fuel + 1, n =>
    if n < 10 then [n] else natDigitsAux fuel (n / 10) ++ [n % 10]

/-- Base-10 digits of a natural number, most significant first. -/
def natDigitsRec (n : Nat) : List Nat := natDigitsAux (n + 1) n

/-- Decimal digit characters of a natural number (`str(n)` for `n ≥ 0`). -/
def natToChars (n : Nat) : PyStr := (natDigitsRec n).map Nat.digitChar

/-- Python `str(n)` for an integer. -/
def intToChars (n : Int) : PyStr :=
  if n < 0 then '-' :: natToChars n.natAbs else natToChars n.natAbs

/-- Numeric value of a list of decimal digits (most significant first). -/
def digitsVal (l : List Char) : Nat :=
  l.foldl (fun a c => a * 10 + (c.toNat - 48)) 0

/-- Numeric value of a list of digit numbers (most significant first). -/
def natDigitsVal (l : List Nat) : Nat :=
  l.foldl (fun a d => a * 10 + d) 0

/-- Join a list of strings with a one-character separator
(Python `",".join(parts)`). -/
def joinChar (c : Char) : List PyStr → PyStr
  | [] => []
  | [s] => s
  | s :: rest => s ++ c :: joinChar c rest

/-!
## The model of `decimal.Decimal`

A finite `Decimal` is its `as_tuple()` view: sign, digit list, exponent.
Special values (`NaN`, `Infinity`) are outside the model; the parser
below rejects them, so the modelled value universe contains finite
decimals only.
-/

/-- Finite Python `decimal.Decimal`, as by `Decimal.as_tuple()`. -/
structure Dec where
  sign : Bool
  digits : List Nat
  exp : Int
deriving DecidableEq, Repr

/-- Well-formedness of a `Dec`: what the Python `Decimal` constructor
guarantees (at least one digit, each a decimal digit). -/
def Dec.wf (d : Dec) : Bool :=
  !d.digits.isEmpty && d.digits.all (· < 10)

/-- Exact rational value of a finite decimal. -/
def Dec.rat (d : Dec) : ℚ :=
  (if d.sign then -1 else 1) * (natDigitsVal d.digits : ℚ) * (10 : ℚ) ^ d.exp

/-- Python `str(Decimal)` (the to-scientific-string algorithm of the
General Decimal Arithmetic specification, which `decimal.__str__`
implements). -/
def Dec.toStr (d : Dec) : PyStr :=
  let ds := d.digits.map Nat.digitChar
  let e := d.exp
  let adjusted : Int := e + ds.length - 1
  let body :=
    if e ≤ 0 ∧ -6 ≤ adjusted then
      if e = 0 then ds
      else
        let pos : Int := (ds.length : Int) + e
        if 0 < pos then ds.take pos.toNat ++ '.' :: ds.drop pos.toNat
        else '0' :: '.' :: List.replicate (-pos).toNat '0' ++ ds
    else
      (match ds with
       | [] => []
       | [c] => [c]
       | c :: rest => c :: '.' :: rest) ++
      'E' :: (if 0 ≤ adjusted then '+' :: intToChars adjusted else intToChars adjusted)
  if d.sign then '-' :: body else body

/-!
## The model of `datetime.datetime`
-/

/-- Python `datetime.datetime` (microseconds not modelled). -/
structure PyDateTime where
  year : Nat
  month : Nat
  day : Nat
  hour : Nat
  minute : Nat
  second : Nat
deriving DecidableEq, Repr

/-- Zero-pad a digit string on the left to a given width. -/
def zpad (w : Nat) (s : PyStr) : PyStr := List.replicate (w - s.length) '0' ++ s

/-- Python `str(datetime)`: `YYYY-MM-DD HH:MM:SS` (zero microseconds). -/
def PyDateTime.toStr (t : PyDateTime) : PyStr :=
  zpad 4 (natToChars t.year) ++ '-' :: zpad 2 (natToChars t.month) ++
  '-' :: zpad 2 (natToChars t.day) ++ ' ' :: zpad 2 (natToChars t.hour) ++
  ':' :: zpad 2 (natToChars t.minute) ++ ':' :: zpad 2 (natToChars t.second)

/-- Python `datetime.date()` as a (year, month, day) triple. -/
def PyDateTime.dateOf (t : PyDateTime) : Nat × Nat × Nat := (t.year, t.month, t.day)

/-!
## The scalar value universe

These are the Python types the Scalar Coercer can produce, in the order
of the `preference` tuple of `typehelpers.best_representative`:
`(datetime.datetime, bool, int, Decimal, float, str)`, plus `None`.
-/

/-- A coerced scalar Python value. -/
inductive Scalar where
  | none
  | bool (b : Bool)
  | int (n : Int)
  | dec (d : Dec)
  | float (q : ℚ)
  | str (s : PyStr)
  | dt (t : PyDateTime)
deriving DecidableEq, Repr

/-- Python errors distinguished by the embedded code. -/
inductive PyErr where
  | valueError
  | invalidOperation
  | typeError (msg : PyStr)
  | attributeError
  | keyError
  | indexError
  | notImplementedError
  | exc (msg : PyStr)
deriving DecidableEq, Repr

/-- `preference.index(type(x))` of `best_representative`: position in
`(datetime, bool, int, Decimal, float, str)`.  `type(None)` is not in the
tuple, so Python raises `ValueError` there. -/
def Scalar.rankE : Scalar → Except PyErr Nat
  | .dt _ => .ok 0
  | .bool _ => .ok 1
  | .int _ => .ok 2
  | .dec _ => .ok 3
  | .float _ => .ok 4
  | .str _ => .ok 5
  | .none => .error .valueError

/-- Digits (base 10) of the fractional part of a nonnegative rational,
`k` places long. -/
def fracDigits : ℚ → Nat → List Nat
  | _, 0 => []
  | q, k + 1 =>
    let q10 := q * 10
    (⌊q10⌋).toNat :: fracDigits (q10 - ⌊q10⌋) k

/-- Printed form of the modelled Python `float`.  Python prints the
shortest decimal that round-trips through the binary double; the model
prints sign, integer part, and the first 17 fractional digits with
trailing zeroes removed (`.0` when the value is integral), which agrees
with Python on the short decimal literals the engine meets.  No verified
property depends on the exact digits printed for a float. -/
def floatToStr (q : ℚ) : PyStr :=
  let a := |q|
  let ip := (⌊a⌋).toNat
  let fd := fracDigits (a - ⌊a⌋) 17
  let fdTrim := (fd.reverse.dropWhile (· = 0)).reverse
  let fdChars := if fdTrim.isEmpty then ['0'] else fdTrim.map Nat.digitChar
  (if q < 0 then ['-'] else []) ++ natToChars ip ++ '.' :: fdChars

/-- Python `str(x)` on a scalar. -/
def Scalar.pyStr : Scalar → PyStr
  | .none => pyS "None"
  | .bool true => pyS "True"
  | .bool false => pyS "False"
  | .int n => intToChars n
  | .dec d => d.toStr
  | .float q => floatToStr q
  | .str s => s
  | .dt t => t.toStr

/-- Whether the value has a `__neg__` attribute (numeric types). -/
def Scalar.hasNeg : Scalar → Bool
  | .bool _ | .int _ | .dec _ | .float _ => true
  | _ => false

/-- Python `x < 0` on the values for which `set_worst` evaluates it
(those with `__neg__`). -/
def Scalar.ltZero : Scalar → Bool
  | .int n => n < 0
  | .dec d => d.rat < 0
  | .float q => q < 0
  | _ => false

/-- Python `abs(x)`; `Option.none` marks the `TypeError` raised for
strings, datetimes and `None`. -/
def Scalar.pyAbs : Scalar → Option Scalar
  | .bool b => some (.int (if b then 1 else 0))
  | .int n => some (.int n.natAbs)
  | .dec d => some (.dec { d with sign := false })
  | .float q => some (.float |q|)
  | _ => Option.none

/-- Python `-1 * abs(x)` for the numeric types (used by the sign-restore
step of `set_worst`). -/
def Scalar.negAbs : Scalar → Scalar
  | .int n => .int (-(n.natAbs : Int))
  | .dec d => .dec { d with sign := true }
  | .float q => .float (-|q|)
  | s => s

/-- Rational value of a Python number (`bool` counts as `0`/`1`, as in
Python numeric comparison). -/
def Scalar.ratOf : Scalar → Option ℚ
  | .bool b => some (if b then 1 else 0)
  | .int n => some (n : ℚ)
  | .dec d => some d.rat
  | .float q => some q
  | _ => Option.none

/-- Python `==` between coerced scalar values: numeric kinds compare by
value across types (`True == 1`, `Decimal(2) == 2`), strings and
datetimes compare within their kind, everything else is unequal. -/
def pyEq (a b : Scalar) : Bool :=
  match a, b with
  | .none, .none => true
  | .str s, .str t => s = t
  | .dt x, .dt y => x = y
  | _, _ =>
    match a.ratOf, b.ratOf with
    | some p, some q => p = q
    | _, _ => false

/-- Lexicographic `<` on strings (Python compares code points). -/
def strLt : PyStr → PyStr → Bool
  | [], [] => false
  | [], _ :: _ => true
  | _ :: _, [] => false
  | a :: s, b :: t => if a = b then strLt s t else a < b

/-- Lexicographic `<` on lists of naturals (Python tuple comparison). -/
def natListLt : List Nat → List Nat → Bool
  | [], [] => false
  | [], _ :: _ => true
  | _ :: _, [] => false
  | a :: s, b :: t => if a = b then natListLt s t else a < b

/-- Python `a < b` on scalars: numbers by value, strings and datetimes
lexicographically, anything else raises `TypeError`. -/
def pyLt (a b : Scalar) : Except PyErr Bool :=
  match a, b with
  | .str s, .str t => .ok (strLt s t)
  | .dt x, .dt y =>
    .ok (natListLt [x.year, x.month, x.day, x.hour, x.minute, x.second]
                   [y.year, y.month, y.day, y.hour, y.minute, y.second])
  | _, _ =>
    match a.ratOf, b.ratOf with
    | some p, some q => .ok (p < q)
    | _, _ => .error (.typeError (pyS "unorderable types"))

/-- Python `max(a, b)`: the second argument only when strictly larger. -/
def pyMax2 (a b : Scalar) : Except PyErr Scalar := do
  let lt ← pyLt a b
  pure (if lt then b else a)

/-!
## The Python literal parsers

`int(s)`, `Decimal(s)` and `float(s)` on strings.  Failure carries the
exception class the Python constructor raises (`ValueError`,
`decimal.InvalidOperation`, `ValueError` respectively), which is what the
`try`/`except` chain of `coerce_to_specific` keys on.  Underscore digit
grouping and the special values `inf`/`nan` are outside the model (the
engine never feeds them on the verified paths).
-/

/-- Split a leading sign off a string; `true` means negative. -/
def takeSign : PyStr → Bool × PyStr
  | [] => (false, [])
  | c :: r =>
    if c = '-' then (true, r)
    else if c = '+' then (false, r)
    else (false, c :: r)

/-- Python `int(s)` on a string. -/
def pyIntParse (s : PyStr) : Except PyErr Int :=
  let (neg, r) := takeSign (stripWs s)
  if !r.isEmpty && r.all isAsciiDigit then
    .ok ((if neg then -1 else 1) * (digitsVal r : Int))
  else .error .valueError

/-- Split a string at the first occurrence of a character from `cs`. -/
def splitFirst (cs : List Char) : PyStr → PyStr × Option PyStr
  | [] => ([], Option.none)
  | c :: r =>
    if cs.contains c then ([], some r)
    else
      let p := splitFirst cs r
      (c :: p.1, p.2)

/-- Digit values of a digit string. -/
def charDigits (l : PyStr) : List Nat := l.map (fun c => c.toNat - 48)

/-- Python `Decimal(s)` on a string: optional sign, digits with an
optional point, optional exponent suffix; the digit list is normalised
exactly as `as_tuple()` reports it (leading zeroes removed, a single `0`
kept for a zero mantissa, trailing zeroes kept). -/
def pyDecParse (s : PyStr) : Except PyErr Dec :=
  let (neg, r) := takeSign (stripWs s)
  let (mant, expPart) := splitFirst ['e', 'E'] r
  let (ip, fpOpt) := splitFirst ['.'] mant
  let fp := fpOpt.getD []
  if !(ip.all isAsciiDigit && fp.all isAsciiDigit && !(ip.isEmpty && fp.isEmpty)) then
    .error .invalidOperation
  else
    let eRes : Except PyErr Int :=
      match expPart with
      | Option.none => .ok 0
      | some ep =>
        let (eneg, ed) := takeSign ep
        if !ed.isEmpty && ed.all isAsciiDigit then
          .ok ((if eneg then -1 else 1) * (digitsVal ed : Int))
        else .error .invalidOperation
    match eRes with
    | .error e => .error e
    | .ok ev =>
      let raw := charDigits (ip ++ fp)
      let trimmed := raw.dropWhile (· = 0)
      let ds := if trimmed.isEmpty then [0] else trimmed
      .ok ⟨neg, ds, ev - fp.length⟩

/-- Python `float(s)` on a string (finite decimal literals). -/
def pyFloatParse (s : PyStr) : Except PyErr ℚ :=
  let (neg, r) := takeSign (stripWs s)
  let (mant, expPart) := splitFirst ['e', 'E'] r
  let (ip, fpOpt) := splitFirst ['.'] mant
  let fp := fpOpt.getD []
  if !(ip.all isAsciiDigit && fp.all isAsciiDigit && !(ip.isEmpty && fp.isEmpty)) then
    .error .valueError
  else
    let eRes : Except PyErr Int :=
      match expPart with
      | Option.none => .ok 0
      | some ep =>
        let (eneg, ed) := takeSign ep
        if !ed.isEmpty && ed.all isAsciiDigit then
          .ok ((if eneg then -1 else 1) * (digitsVal ed : Int))
        else .error .valueError
    match eRes with
    | .error e => .error e
    | .ok ev =>
      let m : ℚ := (digitsVal ip : ℚ) + (digitsVal fp : ℚ) / (10 : ℚ) ^ fp.length
      .ok ((if neg then -1 else 1) * m * (10 : ℚ) ^ ev)

/-!
## Python `%`-formatting

`fmt % args` with `%s` conversions and `%%` escapes, as used throughout
`reshape.py`.  Surplus arguments raise
`TypeError: not all arguments converted during string formatting` and a
missing argument raises `TypeError: not enough arguments for format
string`, exactly as in CPython.
-/

/-- Message of the surplus-argument `TypeError` of `%`-formatting. -/
def fmtSurplusMsg : PyStr := pyS "not all arguments converted during string formatting"

/-- Python `fmt % tuple(args)` restricted to `%s` and `%%`. -/
def pyFormat : PyStr → List PyStr → Except PyErr PyStr
  | [], [] => .ok []
  | [], _ :: _ => .error (.typeError fmtSurplusMsg)
  | '%' :: 's' :: rest, a :: args => (pyFormat rest args).map (a ++ ·)
  | '%' :: 's' :: _, [] => .error (.typeError (pyS "not enough arguments for format string"))
  | '%' :: '%' :: rest, args => (pyFormat rest args).map ('%' :: ·)
  | '%' :: _ :: _, _ => .error .valueError
  | ['%'], _ => .error .valueError
  | c :: rest, args => (pyFormat rest args).map (c :: ·)

/-!
## Nested record values

`RVal` is the duck-typed value universe of `reshape.py`: scalars,
Python lists, and ordered mappings (assoc lists preserving insertion
order, as Python dicts do).
-/

/-- A (possibly nested) Python value as handled by the reshaper. -/
inductive RVal where
  | sc (s : Scalar)
  | lst (xs : List RVal)
  | dct (fields : List (PyStr × RVal))
deriving Repr

/-- The opening and closing brace characters. -/
def lbrace : Char := Char.ofNat 123
def rbrace : Char := Char.ofNat 125
/-- The apostrophe character (Python repr quotes). -/
def aposChar : Char := Char.ofNat 39

mutual
/-- Python `str(x)` on a reshaper value: scalars print as themselves,
containers print as their `repr` (the exact repr text of containers,
quoting and escaping included, only feeds the text fallback of the
coercer and is approximated: no verified property depends on it). -/
def pyStrR : RVal → PyStr
  | .sc s => s.pyStr
  | .lst xs => '[' :: joinChar ',' (pyStrRList xs) ++ [']']
  | .dct d => lbrace :: joinChar ',' (pyStrRFields d) ++ [rbrace]

/-- Repr forms of the items of a list value. -/
def pyStrRList : List RVal → List PyStr
  | [] => []
  | x :: xs =>
    (match x with
     | .sc (.str s) => aposChar :: s ++ [aposChar]
     | _ => pyStrR x) :: pyStrRList xs

/-- Repr forms of the fields of a mapping value. -/
def pyStrRFields : List (PyStr × RVal) → List PyStr
  | [] => []
  | (k, v) :: rest =>
    (aposChar :: k ++ aposChar :: ':' :: ' ' ::
     (match v with
      | .sc (.str s) => aposChar :: s ++ [aposChar]
      | _ => pyStrR v)) :: pyStrRFields rest
end

/-!
## `typehelpers.py`
-/

/-- The test `hasattr(d2, "strip") and not d2.strip()` of
`best_representative`: a string that is empty or whitespace. -/
def isBlankStr : Scalar → Bool
  | .str s => (stripWs s).isEmpty
  | _ => false

/-- Re-create a value of the type of `template` from a (padded) string:
the `new_type(new_worst)` conversion of `set_worst`.  Calling the
`datetime` type on a string raises `TypeError` in Python. -/
def reparseAs (template : Scalar) (s : PyStr) : Except PyErr Scalar :=
  match template with
  | .int _ => (pyIntParse s).map .int
  | .dec _ => (pyDecParse s).map .dec
  | .float _ => (pyFloatParse s).map .float
  | .str _ => .ok (.str s)
  | .bool b => .ok (.bool b)
  | .dt _ => .error (.typeError (pyS "an integer is required"))
  | .none => .error (.typeError (pyS "NoneType takes no arguments"))

/-- `typehelpers.set_worst(old_worst, new_worst)`: pad `new_worst` with
zeroes so it is not shorter than `old_worst`.  The model follows the
source statement by statement: the early return for `bool`, the sign
bookkeeping, the `abs` attempt on both arguments inside one `try` (so a
failing `abs(new_worst)` leaves `old_worst` already replaced), the
length comparison on the (partially) absolute values, and the sign
restoration whose inner `abs` failure is swallowed by the bare
`except`. -/
def set_worst (old new : Scalar) : Except PyErr Scalar :=
  match new with
  | .bool b => .ok (.bool b)
  | _ =>
    let negative := (old.hasNeg && old.ltZero) || (new.hasNeg && new.ltZero)
    let (old2, new2) :=
      match old.pyAbs with
      | Option.none => (old, new)
      | some o =>
        match new.pyAbs with
        | Option.none => (o, new)
        | some n => (o, n)
    let core : Except PyErr Scalar :=
      if new2.pyStr.length < old2.pyStr.length then
        reparseAs new2 (ljustZero new2.pyStr old2.pyStr.length)
      else .ok new2
    match core with
    | .error e => .error e
    | .ok v => .ok (if negative then v.negAbs else v)

/-- `typehelpers._places_b4_and_after_decimal(d)`. -/
def places_b4_and_after_decimal (d : Dec) : Int × Nat :=
  ((d.digits.length : Int) + d.exp, (max (-d.exp) 0).toNat)

/-- `typehelpers.worst_decimal(d1, d2)`: a 9-filled decimal wide enough
for both.  Python `"9" * k` is empty for `k ≤ 0`; calling `as_tuple` on
a non-`Decimal` raises `AttributeError`. -/
def worst_decimal (a b : Scalar) : Except PyErr Scalar :=
  match a, b with
  | .dec d1, .dec d2 =>
    let p1 := places_b4_and_after_decimal d1
    let p2 := places_b4_and_after_decimal d2
    (pyDecParse (List.replicate (max p1.1 p2.1).toNat '9' ++
                 '.' :: List.replicate (max p1.2 p2.2) '9')).map .dec
  | _, _ => .error .attributeError

/-- One iteration of the `for coerced in (d1, d2)` loop of
`best_representative`; the state is `(worst_pref, worst)`. -/
def bw_step (st : Nat × Scalar) (coerced : Scalar) : Except PyErr (Nat × Scalar) := do
  let (worstPref, worst) := st
  let pref ← coerced.rankE
  if worstPref < pref then do
    let w ← set_worst worst coerced
    pure (pref, w)
  else if pref = worstPref then
    match coerced with
    | .dec _ => do
      let wd ← worst_decimal coerced worst
      let w ← set_worst worst wd
      pure (worstPref, w)
    | .float _ => do
      let m ← pyMax2 coerced worst
      let w ← set_worst worst m
      pure (worstPref, w)
    | _ =>
      if worst.pyStr.length < coerced.pyStr.length then do
        let w ← set_worst worst coerced
        pure (worstPref, w)
      else pure st
  else pure st

/-- `typehelpers.best_representative(d1, d2)`: the Type Widener.  The
blank-string early return inspects only `d2`; the loop runs over the
pair `(d1, d2)` with initial state `worst_pref = 0`, `worst = ""`. -/
def best_representative (d1 d2 : Scalar) : Except PyErr Scalar :=
  if isBlankStr d2 then .ok d1
  else if d1 = .none then .ok d2
  else if d2 = .none then .ok d1
  else do
    let st1 ← bw_step (0, .str []) d1
    let st2 ← bw_step st1 d2
    pure st2.2

/-!
## `typehelpers.coerce_to_specific`

The external `dateutil.parser.parse` is a parameter
`parse : PyStr → Option PyDateTime` (`Option.none` covers every way the
library call can raise; non-string arguments raise `TypeError` before
the library parses anything).  `datetime.datetime.now().date()` is the
parameter `today`.
-/

/-- The `clean_datum` of the false-positive guard:
`datum.strip().lstrip("-").lstrip("0").rstrip(".")`. -/
def cleanDatum (s : PyStr) : PyStr :=
  rstripChar '.' (lstripChar '0' (lstripChar '-' (stripWs s)))

/-- The false-positive guard and date parse: the body of the `try` block
of `coerce_to_specific`, returning `some result` exactly when the block
reaches `return result`. -/
def dateTry (parse : PyStr → Option PyDateTime) (today : Nat × Nat × Nat)
    (datum : RVal) : Option PyDateTime :=
  match datum with
  | .sc (.str s) =>
    match parse s with
    | Option.none => Option.none
    | some result =>
      let clean := cleanDatum s
      if sepCount clean < 2 then
        if !isDigitRun clean then Option.none
        else if !([4, 6, 8, 12, 14, 17].contains clean.length) then Option.none
        else if result.dateOf = today then Option.none
        else if !(decide (1700 < result.year) && decide (result.year < 2150)) then
          Option.none
        else some result
      else some result
  | _ => Option.none

/-- The falsy boolean vocabulary of `coerce_to_specific`. -/
def falsyVocab : List PyStr := [pyS "0", pyS "false", pyS "f", pyS "n", pyS "no"]

/-- The truthy boolean vocabulary of `coerce_to_specific`. -/
def truthyVocab : List PyStr := [pyS "1", pyS "true", pyS "t", pyS "y", pyS "yes"]

/-- `typehelpers.coerce_to_specific(datum)`: the Scalar Coercer.  Each
fallback stage catches exactly the exception class its Python
counterpart catches (`except Exception` for the date attempt,
`ValueError` for `int`, `InvalidOperation` for `Decimal`, `ValueError`
for `float`); an uncaught class would propagate. -/
def coerce_to_specific (parse : PyStr → Option PyDateTime)
    (today : Nat × Nat × Nat) (datum : RVal) : Except PyErr Scalar :=
  match datum with
  | .sc .none => .ok .none
  | _ =>
    match dateTry parse today datum with
    | some r => .ok (.dt r)
    | Option.none =>
      let sform := (stripWs (pyStrR datum)).map Char.toLower
      if falsyVocab.contains sform then .ok (.bool false)
      else if truthyVocab.contains sform then .ok (.bool true)
      else
        match pyIntParse (pyStrR datum) with
        | .ok n => .ok (.int n)
        | .error e =>
          if e ≠ .valueError then .error e else
          match pyDecParse (pyStrR datum) with
          | .ok d => .ok (.dec d)
          | .error e2 =>
            if e2 ≠ .invalidOperation then .error e2 else
            match pyFloatParse (pyStrR datum) with
            | .ok q => .ok (.float q)
            | .error e3 =>
              if e3 ≠ .valueError then .error e3
              else .ok (.str (pyStrR datum))

/-- One iteration of the loop of `best_coercable` (same shape as
`bw_step`, but the running worst is replaced directly, without
`set_worst`). -/
def bc_step (parse : PyStr → Option PyDateTime) (today : Nat × Nat × Nat)
    (st : Nat × Scalar) (datum : RVal) : Except PyErr (Nat × Scalar) := do
  let coerced ← coerce_to_specific parse today datum
  let (worstPref, worst) := st
  let pref ← coerced.rankE
  if worstPref < pref then pure (pref, coerced)
  else if pref = worstPref then
    match coerced with
    | .dec _ => do
      let wd ← worst_decimal coerced worst
      pure (worstPref, wd)
    | .float _ => do
      let m ← pyMax2 coerced worst
      pure (worstPref, m)
    | _ =>
      if worst.pyStr.length < coerced.pyStr.length then pure (worstPref, coerced)
      else pure st
  else pure st

/-- `typehelpers.best_coercable(data)`: coerce every datum and keep the
least specific representative. -/
def best_coercable (parse : PyStr → Option PyDateTime) (today : Nat × Nat × Nat)
    (data : List RVal) : Except PyErr Scalar :=
  (data.foldlM (bc_step parse today) (0, .str [])).map (·.2)

/-!
## `reshape.py`: rows and key cleaning

A table row is an ordered mapping (`OrderedDict`) from field names to
values, modelled as an association list with Python dict semantics:
assigning to an existing key replaces its value in place, assigning to a
new key appends it.  Rows that are not mappings raise in the source
(`TypeError` in `unnest_children`, `AttributeError` elsewhere); the
model fixes the row type to mappings, which is the only shape any
verified property concerns.
-/

/-- An ordered mapping from field names to values (a Python dict). -/
abbrev Row := List (PyStr × RVal)

/-- Keys of a row. -/
def rkeys (r : Row) : List PyStr := r.map (·.1)

/-- Python `row[k] = v`: replace in place, or append a new key. -/
def rset : Row → PyStr → RVal → Row
  | [], k, v => [(k, v)]
  | (k0, v0) :: rest, k, v =>
    if k0 = k then (k0, v) :: rest else (k0, v0) :: rset rest k v

/-- Python `row.pop(k)` (ignoring the returned value). -/
def rpop : Row → PyStr → Row
  | [], _ => []
  | (k0, v0) :: rest, k => if k0 = k then rest else (k0, v0) :: rpop rest k

/-- Python truthiness of a value (`bool(v)`). -/
def pyTruthy : RVal → Bool
  | .sc .none => false
  | .sc (.bool b) => b
  | .sc (.int n) => n ≠ 0
  | .sc (.dec d) => d.rat ≠ 0
  | .sc (.float q) => q ≠ 0
  | .sc (.str s) => !s.isEmpty
  | .sc (.dt _) => true
  | .lst xs => !xs.isEmpty
  | .dct d => !d.isEmpty

/-- Legal column-name characters: the complement of
`reshape._illegal_in_column_name` (`[^a-zA-Z0-9_$#]`). -/
def isIdentChar (c : Char) : Bool :=
  ('a' ≤ c && c ≤ 'z') || ('A' ≤ c && c ≤ 'Z') || isAsciiDigit c ||
  c = '_' || c = '$' || c = '#'

/-- `reshape.clean_key_name(key)`.  The word list `sql_reserved_words`
lives in `reserved.py`, which is not part of the embedded sources; it is
passed as the parameter `reserved` (compared against the uppercased
candidate, as in the source) and every theorem below holds for an
arbitrary choice of that list.  An empty stripped key raises
`IndexError` at the `result[0]` subscript. -/
def clean_key_name (reserved : List PyStr) (key : PyStr) : Except PyErr PyStr :=
  let r1 := (stripWs key).map (fun c => if isIdentChar c then c else '_')
  match r1 with
  | [] => .error .indexError
  | c :: _ =>
    let r2 := if isAsciiDigit c then '_' :: r1 else r1
    let r3 := if reserved.contains (r2.map Char.toUpper) then '_' :: key else r2
    .ok (r3.map Char.toLower)

/-- Rebuild a mapping with cleaned keys (the
`OrderedDict((clean_key_name(k), v) ...)` step of `walk_and_clean`),
raising `KeyError` when cleaning shrank the key set. -/
def cleanRowKeys (reserved : List PyStr) (d : Row) : Except PyErr Row := do
  let cleaned ← d.mapM (fun kv => do pure (← clean_key_name reserved kv.1, kv.2))
  let rebuilt := cleaned.foldl (fun acc kv => rset acc kv.1 kv.2) []
  if rebuilt.length < d.length then .error .keyError else pure rebuilt

mutual
/-- `reshape.walk_and_clean(data)`: recursively clean every mapping key
(namedtuples, which the source converts to mappings first, are outside
the model input type). -/
def walk_and_clean (reserved : List PyStr) : RVal → Except PyErr RVal
  | .sc s => .ok (.sc s)
  | .lst xs => do pure (.lst (← wacList reserved xs))
  | .dct d => do
    let d1 ← wacFields reserved d
    pure (.dct (← cleanRowKeys reserved d1))

/-- `walk_and_clean` over the items of a list value. -/
def wacList (reserved : List PyStr) : List RVal → Except PyErr (List RVal)
  | [] => .ok []
  | x :: xs => do pure ((← walk_and_clean reserved x) :: (← wacList reserved xs))

/-- `walk_and_clean` over the values of a mapping. -/
def wacFields (reserved : List PyStr) : Row → Except PyErr Row
  | [] => .ok []
  | (k, v) :: rest => do
    pure ((k, ← walk_and_clean reserved v) :: (← wacFields reserved rest))
end

/-- `reshape._id_fieldname(fieldnames, table_name)`: the first of
`<table>_<stub>`, `<stub>`, `_<stub>` (for stubs `id`, `num`, `no`,
`number`, stub-major order) present among the field names. -/
def id_fieldname (fieldnames : Row) (table_name : PyStr) : Option PyStr :=
  (([pyS "id", pyS "num", pyS "no", pyS "number"]).flatMap
    (fun stub => [table_name ++ '_' :: stub, stub, '_' :: stub])).find?
    (fun cand => (rkeys fieldnames).contains cand)

/-!
## `reshape.UniqueKey`
-/

/-- The dynamic type tag of a scalar (result of `type(...)`). -/
inductive STag where
  | sNone
  | sBool
  | sInt
  | sDec
  | sFloat
  | sStr
  | sDt
deriving DecidableEq, Repr

/-- Tag of a scalar value. -/
def Scalar.stagOf : Scalar → STag
  | .none => .sNone
  | .bool _ => .sBool
  | .int _ => .sInt
  | .dec _ => .sDec
  | .float _ => .sFloat
  | .str _ => .sStr
  | .dt _ => .sDt

/-- The hexadecimal digest of `hashlib.md5()` on empty input: the fixed
32-character string every string-typed `UniqueKey.next()` call returns
(`hashlib` is an external library; this is the well-known MD5 digest of
the empty message, RFC 1321). -/
def md5_empty_hexdigest : PyStr := pyS "d41d8cd98f00b204e9800998ecf8427e"

/-- `reshape.UniqueKey`: the primary-key generator owned by a
`ParentTable`.  `max` holds the running maximum for integer keys (the
source stores whatever `max(...)` returned, so the model keeps it as a
value). -/
structure UniqueKey where
  name : PyStr
  ktype : STag
  maxv : Scalar
deriving Repr

/-- The `UniqueKey.__init__` type check:
`key_type != int and not hasattr(key_type, "lower")` raises
`NotImplementedError` (`hasattr(str, "lower")` holds, so `int` and `str`
pass). -/
def UniqueKey.init (name : PyStr) (ktype : STag) (maxv : Scalar) :
    Except PyErr UniqueKey :=
  if ktype = .sInt || ktype = .sStr then .ok ⟨name, ktype, maxv⟩
  else .error .notImplementedError

/-- Python `x + 1` on the values an integer-typed key maximum can hold
(`int` or `bool`; other types never reach `next` through `use_this_pk`
with an `int` key type, and the model marks them `TypeError`). -/
def pyAddOne : Scalar → Except PyErr Scalar
  | .int n => .ok (.int (n + 1))
  | .bool b => .ok (.int ((if b then 1 else 0) + 1))
  | _ => .error (.typeError (pyS "unsupported operand"))

/-- `UniqueKey.next()`: integer keys increment and return the running
maximum; string keys return `md5().hexdigest()`, the digest of empty
input, without touching any state. -/
def UniqueKey.next (k : UniqueKey) : Except PyErr (Scalar × UniqueKey) :=
  if k.ktype = .sInt then do
    let m2 ← pyAddOne k.maxv
    pure (m2, { k with maxv := m2 })
  else .ok (.str md5_empty_hexdigest, k)

/-!
## `reshape.ParentTable`
-/

/-- `reshape.all_values_for(data, field_name)`: the values of the rows
in which the field is present (explicit `None` values included). -/
def all_values_for (data : List Row) (field : PyStr) : List RVal :=
  data.filterMap (fun r => r.lookup field)

/-- `ParentTable.is_in_all_rows(value)`: every row has a truthy value
for the field (`r.get(value)` is falsy for a present-but-falsy value). -/
def is_in_all_rows (data : List Row) (field : PyStr) : Bool :=
  (data.filter (fun r => match r.lookup field with
    | some v => pyTruthy v
    | Option.none => false)).length = data.length

/-- Size of `set(vals)`: the number of distinct values under Python
equality; list and mapping members are unhashable and raise
`TypeError`. -/
def pySetSize (vals : List RVal) : Except PyErr Nat := do
  let seen ← vals.foldlM (fun (seen : List Scalar) v =>
    match v with
    | .sc s => pure (if seen.any (pyEq s ·) then seen else s :: seen)
    | _ => Except.error (.typeError (pyS "unhashable type"))) []
  pure seen.length

/-- Result of `ParentTable.suitability_as_key`: `(result, key_type)`
with `result` one of `"absent"`, `False` (non-unique), `True` (perfect)
or `"partial"`. -/
inductive SuitRes where
  | absent
  | dupes
  | perfect (t : STag)
  | gaps (t : STag)
deriving DecidableEq, Repr

/-- `ParentTable.suitability_as_key(key_name)`.  Note the source
computes `type(th.best_coercable(pk_values))` before the uniqueness
test, so coercion runs (and any of its exceptions propagate) even for a
non-unique candidate. -/
def suitability_as_key (parse : PyStr → Option PyDateTime)
    (today : Nat × Nat × Nat) (data : List Row) (key_name : PyStr) :
    Except PyErr SuitRes := do
  let pk_values := all_values_for data key_name
  if pk_values.isEmpty then pure .absent
  else do
    let worst ← best_coercable parse today pk_values
    let ktype := worst.stagOf
    let n ← pySetSize pk_values
    if n < pk_values.length then pure .dupes
    else if n = data.length then pure (.perfect ktype)
    else pure (.gaps ktype)

/-- Python `max(vals)` over row values (used to seed an integer key
generator; `None` or a string mixed with numbers raises `TypeError`). -/
def pyMaxList : List RVal → Except PyErr RVal
  | [] => .error .valueError
  | v :: rest =>
    rest.foldlM (fun acc x =>
      match acc, x with
      | .sc a, .sc b => do
        let lt ← pyLt a b
        pure (if lt then RVal.sc b else RVal.sc a)
      | _, _ => .error (.typeError (pyS "unorderable types"))) v

/-- `ParentTable.use_this_pk(pk_name, key_type)`. -/
def use_this_pk (data : List Row) (pk_name : PyStr) (ktype : STag) :
    Except PyErr UniqueKey :=
  if ktype = .sInt then do
    let m ← pyMaxList (.sc (.int 0) :: all_values_for data pk_name)
    match m with
    | .sc s => UniqueKey.init pk_name ktype s
    | _ => .error (.typeError (pyS "unorderable types"))
  else UniqueKey.init pk_name ktype (.int 0)

/-- The mutable state of a `ParentTable`: its name, rows, requested or
resolved key name, and key generator. -/
structure PT where
  name : PyStr
  rows : List Row
  pk_name : Option PyStr
  pk : Option UniqueKey
deriving Repr

/-- Fill the rows missing the key field (`assign_pk` for `absent` or
`partial` suitability), threading the generator state row by row; new
keys append at the end of the row, as Python dict assignment does. -/
def fillMissingPk (pk_name : PyStr) (uk : UniqueKey) (rows : List Row) :
    Except PyErr (List Row × UniqueKey) := do
  let (rev, uk2) ← rows.foldlM (fun (st : List Row × UniqueKey) r =>
    if (rkeys r).contains pk_name then pure (r :: st.1, st.2)
    else do
      let (v, uk2) ← st.2.next
      pure (rset r pk_name (.sc v) :: st.1, uk2)) ([], uk)
  pure (rev.reverse, uk2)

/-- The unusable-key message of `assign_pk`
(`"Duplicate values in %s.%s, unsuitable primary key"`). -/
def dupKeyMsg (name pkn : PyStr) : PyStr :=
  pyS "Duplicate values in " ++ name ++ '.' :: pkn ++
  pyS ", unsuitable primary key"

/-- `ParentTable.assign_pk()`.  With no requested key name (or an empty,
hence falsy, one) the single candidate becomes `<name>_id`; a non-unique
candidate raises at once, with no further candidate tried. -/
def assign_pk (parse : PyStr → Option PyDateTime) (today : Nat × Nat × Nat)
    (t : PT) : Except PyErr PT := do
  let pkn := match t.pk_name with
    | some p => if p.isEmpty then t.name ++ pyS "_id" else p
    | Option.none => t.name ++ pyS "_id"
  let suit ← suitability_as_key parse today t.rows pkn
  match suit with
  | .dupes => .error (.exc (dupKeyMsg t.name pkn))
  | .absent => do
    let uk ← use_this_pk t.rows pkn .sInt
    let (rows2, uk2) ← fillMissingPk pkn uk t.rows
    pure { t with pk_name := some pkn, rows := rows2, pk := some uk2 }
  | .perfect ktype => do
    let uk ← use_this_pk t.rows pkn ktype
    pure { t with pk_name := some pkn, pk := some uk }
  | .gaps ktype => do
    let uk ← use_this_pk t.rows pkn ktype
    let (rows2, uk2) ← fillMissingPk pkn uk t.rows
    pure { t with pk_name := some pkn, rows := rows2, pk := some uk2 }

/-- `ParentTable.__init__(data, singular_name, pk_name, force_pk)`:
assign a key at construction only when forced or when the requested key
is truthily present in every row. -/
def parent_table_init (parse : PyStr → Option PyDateTime)
    (today : Nat × Nat × Nat) (data : List Row) (singular_name : PyStr)
    (pk_name : Option PyStr) (force_pk : Bool) : Except PyErr PT :=
  let t : PT := ⟨singular_name, data, pk_name, Option.none⟩
  if force_pk || (match pk_name with
    | some p => !p.isEmpty && is_in_all_rows data p
    | Option.none => false) then assign_pk parse today t
  else .ok t

/-!
## `reshape.unnest_child_dict`
-/

/-- The format template of the collision log line of
`unnest_child_dict`: three `%s` slots, to which the source passes four
arguments. -/
def collisionFmt : PyStr := pyS "Could not unnest child %s; %s present in %s"

/-- The nested mapping after the surrogate-id drop of
`unnest_child_dict` (`if id: if len(val) <= 2: val.pop(id)`). -/
def droppedIdRow (d0 : Row) (parent_name : PyStr) : Row :=
  match id_fieldname d0 parent_name with
  | some idn => if d0.length ≤ 2 then rpop d0 idn else d0
  | Option.none => d0

/-- The pushed-up field names `"%s_%s" % (key, child_key.strip("_"))`. -/
def pushedFieldNames (key : PyStr) (d1 : Row) : List PyStr :=
  d1.map (fun p => key ++ '_' :: stripChar '_' p.1)

/-- The colliding pushed-up names,
`(set(new_field_names) & set(parent)) - set(id or [])`: `set(id)` is the
set of the *characters* of the id string, so the subtraction only ever
removes one-character field names. -/
def overlapNames (parent : Row) (key : PyStr) (d0 : Row)
    (parent_name : PyStr) : List PyStr :=
  let idChars : List PyStr := match id_fieldname d0 parent_name with
    | some idn => idn.map (fun c => [c])
    | Option.none => []
  (pushedFieldNames key (droppedIdRow d0 parent_name)).filter
    (fun n => (rkeys parent).contains n && !idChars.contains n)

/-- `reshape.unnest_child_dict(parent, key, parent_name)`: flatten the
mapping at `parent[key]` into `parent`.  On a name collision the source
builds a log message whose `%`-interpolation has more arguments than
conversion slots, so the `logging.error` line itself raises `TypeError`;
the `return` after it is unreachable but kept in the model. -/
def unnest_child_dict (parent : Row) (key : PyStr) (parent_name : PyStr) :
    Except PyErr Row := do
  let val ← match parent.lookup key with
    | some v => Except.ok v
    | Option.none => Except.error PyErr.keyError
  match val with
  | .dct d0 =>
    let name := parent_name ++ '[' :: aposChar :: key ++ aposChar :: [']']
    match droppedIdRow d0 parent_name with
    | [] => pure (rpop parent key)
    | [(_, v1)] => pure (rset parent key v1)
    | d1 =>
      let overlap := overlapNames parent key d0 parent_name
      if overlap.isEmpty then
        let parent2 := d1.foldl
          (fun p q => rset p (key ++ '_' :: stripChar '_' q.1) q.2) parent
        pure (rpop parent2 key)
      else do
        let _ ← pyFormat collisionFmt
          [name, key, joinChar ',' overlap, parent_name]
        pure parent
  | _ => .error .attributeError

/-!
## `reshape.unnest_children`
-/

/-- Wrap the scalar items of a nested list as one-field records
(`row[key] = [v if hasattr(v, "items") else {key: v} for v in val]`). -/
def wrapItems (key : PyStr) (items : List RVal) : List RVal :=
  items.map (fun v => match v with
    | .dct _ => v
    | _ => .dct [(key, v)])

/-- One step of the first inner loop of `unnest_children`, applied to
one `(key, val)` pair of the snapshot `list(row.items())`: nested
mappings are unnested into the row, nested lists have their items
wrapped as records. -/
def unnestRowStep (parent_name : PyStr) (row : Row) (kv : PyStr × RVal) :
    Except PyErr Row :=
  match kv.2 with
  | .dct _ => unnest_child_dict row kv.1 parent_name
  | .lst items => .ok (rset row kv.1 (.lst (wrapItems kv.1 items)))
  | _ => .ok row

/-- The first inner loop of `unnest_children` over one row: fold the
snapshot of the row items over the evolving row. -/
def unnestRow (parent_name : PyStr) (row : Row) : Except PyErr Row :=
  row.foldlM (unnestRowStep parent_name) row

/-- Insertion-ordered union update of
`field_names_used_by_children[key]` (a `defaultdict(set)`; only
membership in the set is ever consulted). -/
def usedAdd : List (PyStr × List PyStr) → PyStr → List PyStr →
    List (PyStr × List PyStr)
  | [], k, ns => [(k, ns)]
  | (k0, ns0) :: rest, k, ns =>
    if k0 = k then (k0, ns0 ++ ns.filter (fun n => !ns0.contains n)) :: rest
    else (k0, ns0) :: usedAdd rest k ns

/-- The second inner loop of `unnest_children` over one row: record, per
nested-list field, the field names used by its child records.  A
non-mapping item raises `AttributeError` at `child.keys()` (unreachable
after wrapping). -/
def gatherRow (acc : List (PyStr × List PyStr)) (row : Row) :
    Except PyErr (List (PyStr × List PyStr)) :=
  row.foldlM (fun a kv =>
    match kv.2 with
    | .lst items => items.foldlM (fun a2 child =>
        match child with
        | .dct d => pure (usedAdd a2 kv.1 (rkeys d))
        | _ => Except.error PyErr.attributeError) a
    | _ => pure a) acc

/-- `possible_fk_names` as built at the top of `unnest_children`: the
parent-qualified requested key name (when a truthy key name was
requested), then `<parent>_id`, the disambiguated `_<parent>_id`, and
the generic `parent_id`. -/
def possible_fk_names (parent_name : PyStr) (pk_name : Option PyStr) :
    List PyStr :=
  (match pk_name with
   | some p => if p.isEmpty then [] else [parent_name ++ '_' :: stripChar '_' p]
   | Option.none => []) ++
  [parent_name ++ pyS "_id", '_' :: parent_name ++ pyS "_id", pyS "parent_id"]

/-- Accumulating state of the per-child-name loop of `unnest_children`. -/
structure UCState where
  pt : PT
  children : List (PyStr × List Row)
  child_fk_names : List (PyStr × PyStr)
deriving Repr

/-- Stamp and collect the children of one row for one nested-list field:
`child[fk_name] = row[parent.pk.name]` for every child, then
`row.pop(child_name)`.  A missing key raises `KeyError`; a non-list
value under a registered child name raises `TypeError` when iterated
(mixed-shape rows, see the source TODO). -/
def stampRow (child_name fk_name pk_field : PyStr) (row : Row) :
    Except PyErr (Row × List Row) :=
  match row.lookup child_name with
  | Option.none => .ok (row, [])
  | some (.lst items) => do
    let pkv ← match row.lookup pk_field with
      | some v => Except.ok v
      | Option.none => Except.error PyErr.keyError
    let stamped ← items.mapM (fun child =>
      match child with
      | .dct d => Except.ok (rset d fk_name pkv)
      | _ => Except.error (PyErr.typeError (pyS "child rows must be mappings")))
    pure (rpop row child_name, stamped)
  | some _ => .error (.typeError (pyS "value under child name is not a list"))

/-- The body of the `for (child_name, names_in_use)` loop of
`unnest_children`: resolve the parent key if not yet assigned, choose
the first unused foreign-key name (fatal when none remains), stamp every
child row with its parent row key value, move the children out, and
drop the nested-list field from the parent rows. -/
def processChildName (parse : PyStr → Option PyDateTime)
    (today : Nat × Nat × Nat) (fkCandidates : List PyStr) (st : UCState)
    (entry : PyStr × List PyStr) : Except PyErr UCState := do
  let (child_name, names_in_use) := entry
  let pt ← match st.pt.pk with
    | some _ => pure st.pt
    | Option.none => assign_pk parse today st.pt
  let fk ← match fkCandidates.find? (fun c => !names_in_use.contains c) with
    | some fk => pure fk
    | Option.none => Except.error (PyErr.exc
        (pyS "Cannot find unused field name in " ++ pt.name ++ '.' :: child_name ++
         pyS " to use as foreign key"))
  let pk ← match pt.pk with
    | some pk => pure pk
    | Option.none => Except.error PyErr.attributeError
  let (rowsRev, newChildren) ← pt.rows.foldlM
    (fun (acc : List Row × List Row) row => do
      let (row2, cs) ← stampRow child_name fk pk.name row
      pure (row2 :: acc.1, acc.2 ++ cs)) ([], [])
  pure { pt := { pt with rows := rowsRev.reverse },
         children := st.children ++ [(child_name, newChildren)],
         child_fk_names := st.child_fk_names ++ [(child_name, fk)] }

/-- `reshape.unnest_children(data, parent_name, pk_name, force_pk)`:
the full second pass of the Document Reshaper over one record set.
Returns `(rows, pk_name or None, children, child_fk_names)`. -/
def unnest_children (parse : PyStr → Option PyDateTime)
    (today : Nat × Nat × Nat) (data : List Row) (parent_name : PyStr)
    (pk_name : Option PyStr) (force_pk : Bool) :
    Except PyErr (List Row × Option PyStr × List (PyStr × List Row) ×
                  List (PyStr × PyStr)) := do
  let fkCandidates := possible_fk_names parent_name pk_name
  let pt0 ← parent_table_init parse today data parent_name pk_name force_pk
  let (rowsRev, used) ← pt0.rows.foldlM
    (fun (acc : List Row × List (PyStr × List PyStr)) row => do
      let r1 ← unnestRow parent_name row
      let used2 ← gatherRow acc.2 r1
      pure (r1 :: acc.1, used2)) ([], [])
  let st0 : UCState := ⟨{ pt0 with rows := rowsRev.reverse }, [], []⟩
  let stF ← used.foldlM (processChildName parse today fkCandidates) st0
  pure (stF.pt.rows, stF.pt.pk.map (·.name), stF.children, stF.child_fk_names)

/-!
## `ddlgenerator.Table._determine_types`: uniqueness tracking

The uniqueness state of one column in the row loop of
`_determine_types` (ddlgenerator.py lines 490-530) depends only on the
sequence of coerced values of that column, one `Option Scalar` per row
(`Option.none` when the row lacks the field).  The projection mirrors
the source exactly: the first present value initialises
`col["is_unique"] = set([v])`; each later present value `v` flips the
state to `False` when `v in col["is_unique"]` (Python `==` membership)
and is added otherwise; absent rows only touch nullability; finally
`col["is_unique"] = bool(col["is_unique"])` (a nonempty set is truthy).
-/

/-- Per-column uniqueness state: `Option.none` before the column is
first seen, `some Option.none` once flipped to `False`, and
`some (some seen)` while the seen set is still alive. -/
abbrev UniqState := Option (Option (List Scalar))

/-- One row of the uniqueness tracking of `_determine_types`. -/
def colUniqueStep (st : UniqState) (cell : Option Scalar) : UniqState :=
  match cell with
  | Option.none => st
  | some v =>
    match st with
    | Option.none => some (some [v])
    | some Option.none => some Option.none
    | some (some seen) =>
      if seen.any (fun w => pyEq v w) then some Option.none
      else some (some (v :: seen))

/-- Final `unique` flag of a column from its per-row coerced values
(`bool(col["is_unique"])`; a column with no present value never enters
`self.columns`, and the flag is vacuously true in the model). -/
def colUnique (cells : List (Option Scalar)) : Bool :=
  match cells.foldl colUniqueStep Option.none with
  | some Option.none => false
  | _ => true

/-!
## Helper lemmas
-/

lemma pyEq_refl (s : Scalar) : pyEq s s = true := by
  cases s <;> simp [pyEq, Scalar.ratOf]

lemma pyEq_symm (a b : Scalar) : pyEq a b = pyEq b a := by
  cases a <;> cases b <;> simp [pyEq, Scalar.ratOf, decide_eq_decide, eq_comm]

/-- `pyEq` is transitive (each value belongs to one comparison class:
`None`, a rational number, a string, or a datetime). -/
lemma pyEq_trans {a b c : Scalar} (h1 : pyEq a b = true) (h2 : pyEq b c = true) :
    pyEq a c = true := by
  cases a <;> cases b <;> cases c <;>
    simp_all [pyEq, Scalar.ratOf]

/-!
### C10: string-typed `UniqueKey` generators
-/

/-- Hexadecimal digit (lowercase, as `hexdigest` emits). -/
def isHexChar (c : Char) : Bool := isAsciiDigit c || ('a' ≤ c && c ≤ 'f')

/-- C10: a `UniqueKey` built with a string key type returns, on every
call to `next()`, the same fixed 32-character hexadecimal string — the
MD5 digest of empty input — and leaves its state unchanged, so all
successively generated string surrogate keys are identical rather than
distinct. -/
theorem uniquekey_str_constant (k : UniqueKey) (h : k.ktype = .sStr) :
    k.next = .ok (.str md5_empty_hexdigest, k) ∧
    md5_empty_hexdigest.length = 32 ∧
    md5_empty_hexdigest.all isHexChar = true := by
  refine ⟨?_, by decide, by decide⟩
  simp [UniqueKey.next, h]

theorem uniquekey_str_constant_witness :
    (UniqueKey.mk (pyS "id") .sStr (.int 0)).next =
      .ok (.str md5_empty_hexdigest, UniqueKey.mk (pyS "id") .sStr (.int 0)) ∧
    md5_empty_hexdigest.length = 32 ∧
    md5_empty_hexdigest.all isHexChar = true :=
  uniquekey_str_constant ⟨pyS "id", .sStr, .int 0⟩ rfl

/-!
### C1 and C6: the Type Widener is not commutative
-/

/-- C1 counterexample: `best_representative(3, 5)` returns `3` while
`best_representative(5, 3)` returns `5` — two equal-rank, equal-width
integers are widened to whichever came first, so the widener is not
commutative on values. -/
theorem widen_commutativity_counterexample :
    best_representative (.int 3) (.int 5) = .ok (.int 3) ∧
    best_representative (.int 5) (.int 3) = .ok (.int 5) ∧
    (Except.ok (Scalar.int 3) : Except PyErr Scalar) ≠ .ok (.int 5) := by
  refine ⟨by rfl, by rfl, by simp⟩

/-- C6 counterexample: widening the Text value `"48-49"` by the Integer
`311920` returns `"48-49"` unchanged — printed length 5, shorter than
the 6-character printed form of the integer — so the claimed width-cover
guarantee fails in this argument order (the opposite order pads to
`"48-490"`). -/
theorem widen_text_width_counterexample :
    best_representative (.str (pyS "48-49")) (.int 311920) =
      .ok (.str (pyS "48-49")) ∧
    best_representative (.int 311920) (.str (pyS "48-49")) =
      .ok (.str (pyS "48-490")) ∧
    (pyS "48-49").length < (intToChars 311920).length := by
  refine ⟨by rfl, by rfl, by decide⟩

/-!
### C4: the `unique` flag of `_determine_types`
-/

/-- Fresh values: pairwise distinct under `pyEq` and distinct from
everything already seen. -/
def FreshAll (seen vs : List Scalar) : Prop :=
  vs.Pairwise (fun a b => pyEq a b = false) ∧
  ∀ v ∈ vs, ∀ w ∈ seen, pyEq v w = false

lemma uniq_fold_dead (cells : List (Option Scalar)) :
    cells.foldl colUniqueStep (some Option.none) = some Option.none := by
  induction cells with
  | nil => rfl
  | cons c rest ih => cases c <;> simpa [colUniqueStep] using ih

lemma uniq_fold_some (cells : List (Option Scalar)) :
    ∀ x, ∃ y, cells.foldl colUniqueStep (some x) = some y := by
  induction cells with
  | nil => exact fun x => ⟨x, rfl⟩
  | cons c rest ih =>
    intro x
    rcases c with _ | v
    · simpa [colUniqueStep] using ih x
    · rcases x with _ | seen
      · simpa [colUniqueStep] using ih Option.none
      · rw [List.foldl_cons]
        by_cases hv : (seen.any (fun w => pyEq v w)) = true
        · have hstep : colUniqueStep (some (some seen)) (some v) = some Option.none := by
            simp [colUniqueStep, hv]
          rw [hstep]; exact ih Option.none
        · have hv2 : (seen.any (fun w => pyEq v w)) = false := by simpa using hv
          have hstep : colUniqueStep (some (some seen)) (some v) = some (some (v :: seen)) := by
            simp [colUniqueStep, hv2]
          rw [hstep]; exact ih (some (v :: seen))

lemma uniq_fold_seen (cells : List (Option Scalar)) :
    ∀ seen : List Scalar,
      ((∃ s, cells.foldl colUniqueStep (some (some seen)) = some (some s)) ↔
        FreshAll seen (cells.filterMap id)) := by
  induction cells with
  | nil =>
    intro seen
    simp [FreshAll]
  | cons c rest ih =>
    intro seen
    cases c with
    | none => simpa [colUniqueStep] using ih seen
    | some v =>
      rw [List.foldl_cons]
      have hmem : List.filterMap id (some v :: rest) = v :: List.filterMap id rest := by
        simp
      rw [hmem]
      by_cases hv : (seen.any (fun w => pyEq v w)) = true
      · have hstep : colUniqueStep (some (some seen)) (some v) = some Option.none := by
          simp [colUniqueStep, hv]
        rw [hstep, uniq_fold_dead]
        constructor
        · rintro ⟨s, hs⟩; simp at hs
        · rintro ⟨-, hfresh⟩
          obtain ⟨w, hw, hvw⟩ := List.any_eq_true.mp hv
          have h0 := hfresh v (List.mem_cons_self v _) w hw
          rw [h0] at hvw
          cases hvw
      · have hv2 : (seen.any (fun w => pyEq v w)) = false := by simpa using hv
        have hv3 : ∀ w ∈ seen, pyEq v w = false := by
          intro w hw
          have := (List.any_eq_false.mp hv2) w hw
          simpa using this
        have hstep : colUniqueStep (some (some seen)) (some v) = some (some (v :: seen)) := by
          simp [colUniqueStep, hv2]
        rw [hstep, ih (v :: seen)]
        unfold FreshAll
        rw [List.pairwise_cons]
        constructor
        · rintro ⟨hpw, hfresh⟩
          refine ⟨⟨fun y hy => ?_, hpw⟩, fun x hx w hw => ?_⟩
          · rw [pyEq_symm]
            exact hfresh y hy v (List.mem_cons_self v _)
          · rcases List.mem_cons.mp hx with rfl | hx2
            · exact hv3 w hw
            · exact hfresh x hx2 w (List.mem_cons_of_mem _ hw)
        · rintro ⟨⟨hvrest, hpw⟩, hfresh⟩
          refine ⟨hpw, fun y hy w hw => ?_⟩
          rcases List.mem_cons.mp hw with rfl | hw2
          · rw [pyEq_symm]; exact hvrest y hy
          · exact hfresh y (List.mem_cons_of_mem _ hy) w hw2

/-- C4 (amended): the final `unique` flag is true iff no two rows *in
which the field is present* share the same coerced value under Python
equality — null counts as a value of its own, so two explicit nulls also
defeat uniqueness. -/
theorem unique_flag_iff (cells : List (Option Scalar)) :
    colUnique cells = true ↔
      (cells.filterMap id).Pairwise (fun a b => pyEq a b = false) := by
  induction cells with
  | nil => simp [colUnique]
  | cons c rest ih =>
    cases c with
    | none =>
      have : colUnique (Option.none :: rest) = colUnique rest := by
        simp [colUnique, colUniqueStep]
      rw [this, ih]
      simp
    | some v =>
      have hmem : List.filterMap id (some v :: rest) = v :: List.filterMap id rest := by
        simp
      rw [hmem]
      unfold colUnique
      rw [List.foldl_cons]
      have hstep : colUniqueStep Option.none (some v) = some (some [v]) := rfl
      rw [hstep]
      constructor
      · intro h
        obtain ⟨y, hy⟩ := uniq_fold_some rest (some [v])
        rcases y with _ | s
        · rw [hy] at h; cases h
        · have : FreshAll [v] (rest.filterMap id) :=
            (uniq_fold_seen rest [v]).mp ⟨s, hy⟩
          obtain ⟨hpw, hfresh⟩ := this
          rw [List.pairwise_cons]
          refine ⟨fun y hy2 => ?_, hpw⟩
          rw [pyEq_symm]
          exact hfresh y hy2 v (List.mem_singleton_self v)
      · intro h
        rw [List.pairwise_cons] at h
        obtain ⟨hv, hpw⟩ := h
        have : FreshAll [v] (rest.filterMap id) := by
          refine ⟨hpw, fun y hy w hw => ?_⟩
          rcases List.mem_singleton.mp hw with rfl
          rw [pyEq_symm]; exact hv y hy
        obtain ⟨s, hs⟩ := (uniq_fold_seen rest [v]).mpr this
        rw [hs]

/-- C4 counterexample: two rows both carrying an explicit null.  The
code flips the flag to false (`None` enters the seen set like any other
value), while the claim — unique iff no two rows with *non-null* values
share a value — demands true: the two sides of the claimed equivalence
disagree at this input. -/
theorem unique_flag_null_counterexample :
    colUnique [some Scalar.none, some Scalar.none] = false ∧
    (([some Scalar.none, some Scalar.none].filterMap id).filter
        (fun v => v ≠ Scalar.none)).Pairwise (fun a b => pyEq a b = false) := by
  constructor
  · rfl
  · decide


/-!
### C3: totality of the Scalar Coercer

The literal parsers fail only with the exception class that the
corresponding `except` clause of `coerce_to_specific` catches.
-/

lemma pyIntParse_err {s : PyStr} {e : PyErr} (h : pyIntParse s = .error e) :
    e = .valueError := by
  unfold pyIntParse at h
  rcases hts : takeSign (stripWs s) with ⟨neg, r⟩
  rw [hts] at h
  dsimp only at h
  by_cases hc : (!r.isEmpty && r.all isAsciiDigit) = true
  · rw [if_pos hc] at h; cases h
  · rw [if_neg hc] at h
    injection h with h1
    exact h1.symm

lemma pyDecParse_err {s : PyStr} {e : PyErr} (h : pyDecParse s = .error e) :
    e = .invalidOperation := by
  unfold pyDecParse at h
  rcases hts : takeSign (stripWs s) with ⟨neg, r⟩
  rw [hts] at h
  dsimp only at h
  rcases hsp : splitFirst ['e', 'E'] r with ⟨mant, expPart⟩
  rw [hsp] at h
  dsimp only at h
  rcases hsp2 : splitFirst ['.'] mant with ⟨ip, fpOpt⟩
  rw [hsp2] at h
  dsimp only at h
  by_cases hc : (!(ip.all isAsciiDigit && (fpOpt.getD []).all isAsciiDigit &&
      !(ip.isEmpty && (fpOpt.getD []).isEmpty))) = true
  · rw [if_pos hc] at h
    injection h with h1
    exact h1.symm
  · rw [if_neg hc] at h
    rcases expPart with _ | ep
    · simp only at h
      cases h
    · simp only at h
      rcases hts2 : takeSign ep with ⟨eneg, ed⟩
      rw [hts2] at h
      dsimp only at h
      by_cases hc2 : (!ed.isEmpty && ed.all isAsciiDigit) = true
      · rw [if_pos hc2] at h
        simp only at h
        cases h
      · rw [if_neg hc2] at h
        simp only at h
        injection h with h1
        exact h1.symm

lemma pyFloatParse_err {s : PyStr} {e : PyErr} (h : pyFloatParse s = .error e) :
    e = .valueError := by
  unfold pyFloatParse at h
  rcases hts : takeSign (stripWs s) with ⟨neg, r⟩
  rw [hts] at h
  dsimp only at h
  rcases hsp : splitFirst ['e', 'E'] r with ⟨mant, expPart⟩
  rw [hsp] at h
  dsimp only at h
  rcases hsp2 : splitFirst ['.'] mant with ⟨ip, fpOpt⟩
  rw [hsp2] at h
  dsimp only at h
  by_cases hc : (!(ip.all isAsciiDigit && (fpOpt.getD []).all isAsciiDigit &&
      !(ip.isEmpty && (fpOpt.getD []).isEmpty))) = true
  · rw [if_pos hc] at h
    injection h with h1
    exact h1.symm
  · rw [if_neg hc] at h
    rcases expPart with _ | ep
    · simp only at h
      cases h
    · simp only at h
      rcases hts2 : takeSign ep with ⟨eneg, ed⟩
      rw [hts2] at h
      dsimp only at h
      by_cases hc2 : (!ed.isEmpty && ed.all isAsciiDigit) = true
      · rw [if_pos hc2] at h
        simp only at h
        cases h
      · rw [if_neg hc2] at h
        simp only at h
        injection h with h1
        exact h1.symm


/-- C3: the Scalar Coercer is total: for every input it never raises
(always `.ok`), and when the date attempt, the boolean vocabulary and
all three numeric parses fail it falls through to Text carrying
`str(datum)`. -/
theorem coerce_total (parse : PyStr → Option PyDateTime) (today : Nat × Nat × Nat)
    (datum : RVal) :
    (∃ v, coerce_to_specific parse today datum = .ok v) ∧
    (dateTry parse today datum = Option.none →
     falsyVocab.contains ((stripWs (pyStrR datum)).map Char.toLower) = false →
     truthyVocab.contains ((stripWs (pyStrR datum)).map Char.toLower) = false →
     (∀ n, pyIntParse (pyStrR datum) ≠ .ok n) →
     (∀ d, pyDecParse (pyStrR datum) ≠ .ok d) →
     (∀ q, pyFloatParse (pyStrR datum) ≠ .ok q) →
     datum ≠ .sc .none →
     coerce_to_specific parse today datum = .ok (.str (pyStrR datum))) := by
  constructor
  · unfold coerce_to_specific
    split
    · exact ⟨.none, rfl⟩
    · rcases hd : dateTry parse today datum with _ | r
      · simp only
        by_cases hf : falsyVocab.contains ((stripWs (pyStrR datum)).map Char.toLower) = true
        · rw [if_pos hf]; exact ⟨.bool false, rfl⟩
        · rw [if_neg hf]
          by_cases ht : truthyVocab.contains ((stripWs (pyStrR datum)).map Char.toLower) = true
          · rw [if_pos ht]; exact ⟨.bool true, rfl⟩
          · rw [if_neg ht]
            rcases hi : pyIntParse (pyStrR datum) with ei | n
            · have hei := pyIntParse_err hi
              subst hei
              simp only [ne_eq, not_true_eq_false, if_false]
              rcases hdc : pyDecParse (pyStrR datum) with ed | d
              · have hed := pyDecParse_err hdc
                subst hed
                simp only [ne_eq, not_true_eq_false, if_false]
                rcases hfl : pyFloatParse (pyStrR datum) with ef | q
                · have hef := pyFloatParse_err hfl
                  subst hef
                  simp only [ne_eq, not_true_eq_false, if_false]
                  exact ⟨.str (pyStrR datum), rfl⟩
                · exact ⟨.float q, rfl⟩
              · exact ⟨.dec d, rfl⟩
            · exact ⟨.int n, rfl⟩
      · exact ⟨.dt r, rfl⟩
  · intro hd hf ht hi hdc hfl hnone
    unfold coerce_to_specific
    split
    · exact absurd rfl hnone
    · rw [hd]
      simp only
      rw [if_neg (by intro hcon; rw [hf] at hcon; cases hcon),
          if_neg (by intro hcon; rw [ht] at hcon; cases hcon)]
      rcases hi2 : pyIntParse (pyStrR datum) with ei | n
      · have := pyIntParse_err hi2
        subst this
        simp only [ne_eq, not_true_eq_false, if_false]
        rcases hdc2 : pyDecParse (pyStrR datum) with ed | d
        · have := pyDecParse_err hdc2
          subst this
          simp only [ne_eq, not_true_eq_false, if_false]
          rcases hfl2 : pyFloatParse (pyStrR datum) with ef | q
          · have := pyFloatParse_err hfl2
            subst this
            simp only [ne_eq, not_true_eq_false, if_false]
          · exact absurd hfl2 (hfl q)
        · exact absurd hdc2 (hdc d)
      · exact absurd hi2 (hi n)


theorem coerce_total_witness :
    coerce_to_specific (fun _ => Option.none) (2014, 1, 1)
      (.sc (.str (pyS "something else"))) = .ok (.str (pyS "something else")) := by
  have h := (coerce_total (fun _ => Option.none) (2014, 1, 1)
    (.sc (.str (pyS "something else")))).2
  refine h rfl (by decide) (by decide) ?_ ?_ ?_ (by simp)
  · intro n hn
    rw [show pyIntParse (pyStrR (.sc (.str (pyS "something else")))) =
        .error .valueError from rfl] at hn
    cases hn
  · intro d hd
    rw [show pyDecParse (pyStrR (.sc (.str (pyS "something else")))) =
        .error .invalidOperation from rfl] at hd
    cases hd
  · intro q hq
    rw [show pyFloatParse (pyStrR (.sc (.str (pyS "something else")))) =
        .error .valueError from rfl] at hq
    cases hq

/-!
### C5: the compact-date digit-run whitelist
-/

lemma lstrip_sublist (c : Char) (s : PyStr) : List.Sublist (lstripChar c s) s :=
  List.dropWhile_sublist _

lemma rstrip_sublist (c : Char) (s : PyStr) : List.Sublist (rstripChar c s) s := by
  have h := (List.dropWhile_sublist (l := s.reverse) (p := (· = c))).reverse
  rwa [List.reverse_reverse] at h

lemma sepCount_mono {s1 s2 : PyStr} (h : List.Sublist s1 s2) :
    sepCount s1 ≤ sepCount s2 :=
  (h.filter _).length_le

lemma cleanDatum_sublist (s : PyStr) : List.Sublist (cleanDatum s) (stripWs s) :=
  ((rstrip_sublist _ _).trans (lstrip_sublist _ _)).trans (lstrip_sublist _ _)

lemma coerce_dt_inv {parse : PyStr → Option PyDateTime} {today : Nat × Nat × Nat}
    {datum : RVal} {r : PyDateTime}
    (h : coerce_to_specific parse today datum = .ok (.dt r)) :
    dateTry parse today datum = some r := by
  unfold coerce_to_specific at h
  split at h
  · simp at h
  · rcases hd : dateTry parse today datum with _ | r2
    · rw [hd] at h
      dsimp only at h
      exfalso
      by_cases hf : falsyVocab.contains ((stripWs (pyStrR datum)).map Char.toLower) = true
      · rw [if_pos hf] at h; simp at h
      · rw [if_neg hf] at h
        by_cases ht : truthyVocab.contains ((stripWs (pyStrR datum)).map Char.toLower) = true
        · rw [if_pos ht] at h; simp at h
        · rw [if_neg ht] at h
          rcases hi : pyIntParse (pyStrR datum) with ei | n
          · rw [hi] at h
            have := pyIntParse_err hi
            subst this
            simp only [ne_eq, not_true_eq_false, if_false] at h
            rcases hdc : pyDecParse (pyStrR datum) with ed | d
            · rw [hdc] at h
              have := pyDecParse_err hdc
              subst this
              simp only [ne_eq, not_true_eq_false, if_false] at h
              rcases hfl : pyFloatParse (pyStrR datum) with ef | q
              · rw [hfl] at h
                have := pyFloatParse_err hfl
                subst this
                simp only [ne_eq, not_true_eq_false, if_false] at h
                simp at h
              · rw [hfl] at h; simp at h
            · rw [hdc] at h; simp at h
          · rw [hi] at h; simp at h
    · rw [hd] at h
      injection h with h1
      injection h1 with h2
      rw [h2]

/-- C5 (amended): a pure digit run with fewer than two separators
coerces to Temporal only when its length is 4, 6, 8, 12, 14, or 17 (the
source whitelist includes 17, which the claim omits). -/
theorem temporal_digit_run_lengths (parse : PyStr → Option PyDateTime)
    (today : Nat × Nat × Nat) (s : PyStr) (r : PyDateTime)
    (hsep : sepCount (stripWs s) < 2)
    (hdig : isDigitRun (cleanDatum s) = true)
    (hres : coerce_to_specific parse today (.sc (.str s)) = .ok (.dt r)) :
    ([4, 6, 8, 12, 14, 17] : List Nat).contains (cleanDatum s).length = true := by
  have hclean : sepCount (cleanDatum s) < 2 :=
    lt_of_le_of_lt (sepCount_mono (cleanDatum_sublist s)) hsep
  have hdt : dateTry parse today (.sc (.str s)) = some r := coerce_dt_inv hres
  unfold dateTry at hdt
  dsimp only at hdt
  rcases hp : parse s with _ | result
  · rw [hp] at hdt; cases hdt
  · rw [hp] at hdt
    dsimp only at hdt
    rw [if_pos hclean] at hdt
    rw [hdig] at hdt
    simp only [Bool.not_true, Bool.false_eq_true, if_false] at hdt
    by_cases hc : ([4, 6, 8, 12, 14, 17] : List Nat).contains (cleanDatum s).length = true
    · exact hc
    · exfalso
      have hc2 : ([4, 6, 8, 12, 14, 17] : List Nat).contains (cleanDatum s).length = false := by
        simpa using hc
      rw [hc2] at hdt
      simp at hdt

/-- The oracle of the C5 counterexample: a date parser that accepts one
specific 17-digit run (the guard in the source admits runs of length 17,
so any parser behaviour on such runs flows through). -/
def c5Parse : PyStr → Option PyDateTime := fun t =>
  if t = pyS "10000000000000000" then some ⟨2000, 1, 2, 0, 0, 0⟩ else Option.none

/-- C5 counterexample: a pure 17-digit run with no separators that the
date stage accepts — the guard whitelist `(4, 6, 8, 12, 14, 17)` lets
length 17 through, so the claim restricted to lengths 4/6/8/12/14 is
false of the code. -/
theorem temporal_digit_run_17_counterexample :
    coerce_to_specific c5Parse (1999, 1, 1)
      (.sc (.str (pyS "10000000000000000"))) = .ok (.dt ⟨2000, 1, 2, 0, 0, 0⟩) ∧
    sepCount (stripWs (pyS "10000000000000000")) < 2 ∧
    isDigitRun (cleanDatum (pyS "10000000000000000")) = true ∧
    ([4, 6, 8, 12, 14] : List Nat).contains
      (cleanDatum (pyS "10000000000000000")).length = false := by
  refine ⟨by rfl, by decide, by decide, by decide⟩

theorem temporal_digit_run_lengths_witness :
    ([4, 6, 8, 12, 14, 17] : List Nat).contains
      (cleanDatum (pyS "10000000000000001")).length = true := by
  refine temporal_digit_run_lengths
    (fun t => if t = pyS "10000000000000001" then some ⟨2000, 1, 2, 0, 0, 0⟩ else Option.none)
    (1999, 1, 1) (pyS "10000000000000001") ⟨2000, 1, 2, 0, 0, 0⟩
    (by decide) (by decide) (by rfl)


/-!
### C7: the ambiguous-merge collision path
-/

/-- Whether `needle` occurs as a contiguous substring of `hay`. -/
def containsSub (needle hay : PyStr) : Bool :=
  (List.range (hay.length + 1)).any
    (fun i => (hay.drop i).take needle.length = needle)

lemma collision_format_error (a b c d : PyStr) :
    pyFormat collisionFmt [a, b, c, d] = .error (.typeError fmtSurplusMsg) := rfl

/-- C7 (amended): when a pushed-up field name collides with an existing
parent field, `unnest_child_dict` aborts with a `TypeError` raised by
its own malformed logging format line (four arguments for three `%s`
slots), not with an ambiguous-merge error naming the offending field
path; the existing parent field is never overwritten. -/
theorem unnest_collision_raises_format_typeerror
    (parent : Row) (key parent_name : PyStr) (d0 : Row)
    (hval : parent.lookup key = some (.dct d0))
    (hkey : key ≠ [])
    (hlen : 2 ≤ (droppedIdRow d0 parent_name).length)
    (hcol : ∃ n ∈ pushedFieldNames key (droppedIdRow d0 parent_name),
              (rkeys parent).contains n = true) :
    unnest_child_dict parent key parent_name =
      .error (.typeError fmtSurplusMsg) := by
  have hover : (overlapNames parent key d0 parent_name).isEmpty = false := by
    obtain ⟨n, hn, hcont⟩ := hcol
    obtain ⟨p, hp, hpn⟩ := List.mem_map.mp hn
    have hlen2 : 2 ≤ n.length := by
      rw [← hpn]
      simp only [List.length_append, List.length_cons]
      have : 1 ≤ key.length := List.length_pos.mpr hkey
      omega
    have hid : (match id_fieldname d0 parent_name with
        | some idn => idn.map (fun c => [c])
        | Option.none => ([] : List PyStr)).contains n = false := by
      rcases id_fieldname d0 parent_name with _ | idn
      · rfl
      · rw [List.contains_eq_any_beq]
        rw [List.any_eq_false]
        intro x hx
        obtain ⟨c, _, hc⟩ := List.mem_map.mp hx
        intro hbeq
        have hnx : n = x := by simpa using hbeq
        rw [hnx, ← hc] at hlen2
        simp at hlen2
    have hmem : n ∈ overlapNames parent key d0 parent_name := by
      unfold overlapNames
      rw [List.mem_filter]
      refine ⟨hn, ?_⟩
      rw [hcont, hid]
      rfl
    rcases h : overlapNames parent key d0 parent_name with _ | ⟨x, t⟩
    · rw [h] at hmem; cases hmem
    · rfl
  unfold unnest_child_dict
  rw [hval]
  dsimp only [Bind.bind, Except.bind]
  rcases hd1 : droppedIdRow d0 parent_name with _ | ⟨p1, t1⟩
  · rw [hd1] at hlen; simp at hlen
  · rcases t1 with _ | ⟨p2, t2⟩
    · rw [hd1] at hlen; simp at hlen
    · dsimp only
      rw [if_neg (by rw [hover]; simp)]
      rw [show pyFormat collisionFmt
          [parent_name ++ '[' :: aposChar :: key ++ aposChar :: [']'], key,
           joinChar ',' (overlapNames parent key d0 parent_name), parent_name] =
          .error (.typeError fmtSurplusMsg) from rfl]

/-- The parent row of the C7 counterexample: `capital_name` already
exists, so flattening the `capital` mapping collides. -/
def c7Parent : Row :=
  [(pyS "province", .sc (.str (pyS "Q"))),
   (pyS "capital_name", .sc (.str (pyS "x"))),
   (pyS "capital", .dct [(pyS "name", .sc (.str (pyS "QC"))),
                         (pyS "pop", .sc (.int 491140))])]

/-- C7 counterexample: the collision aborts with the fixed CPython
formatting `TypeError`, whose message contains neither the nested key
nor the colliding field name — no ambiguous-merge error carrying the
offending field path is surfaced. -/
theorem unnest_collision_typeerror_counterexample :
    unnest_child_dict c7Parent (pyS "capital") (pyS "provinces") =
      .error (.typeError fmtSurplusMsg) ∧
    containsSub (pyS "capital") fmtSurplusMsg = false ∧
    containsSub (pyS "capital_name") fmtSurplusMsg = false := by
  refine ⟨by rfl, by decide, by decide⟩

theorem unnest_collision_raises_format_typeerror_witness :
    unnest_child_dict
      [(pyS "a", .sc (.int 1)), (pyS "k_b", .sc (.int 2)),
       (pyS "k", .dct [(pyS "b", .sc (.int 3)), (pyS "c", .sc (.int 4))])]
      (pyS "k") (pyS "tbl") = .error (.typeError fmtSurplusMsg) := by
  refine unnest_collision_raises_format_typeerror _ _ _ _ (by rfl) (by decide)
    (by decide) ⟨pyS "k_b", by decide, by decide⟩


/-!
### Toolkit: character classes and parser acceptance
-/

/-- The ten decimal digit characters. -/
def digitChars : List Char := ['0', '1', '2', '3', '4', '5', '6', '7', '8', '9']

lemma digitChar_mem {d : Nat} (h : d < 10) : Nat.digitChar d ∈ digitChars := by
  interval_cases d <;> decide

lemma digit_not_ws {c : Char} (h : c ∈ digitChars) : isPyWs c = false := by
  fin_cases h <;> decide

lemma digit_isAscii {c : Char} (h : c ∈ digitChars) : isAsciiDigit c = true := by
  fin_cases h <;> decide

lemma digit_ne_dash {c : Char} (h : c ∈ digitChars) : c ≠ '-' := by
  fin_cases h <;> decide

lemma digit_ne_plus {c : Char} (h : c ∈ digitChars) : c ≠ '+' := by
  fin_cases h <;> decide

lemma digit_not_eE {c : Char} (h : c ∈ digitChars) : (['e', 'E'].contains c) = false := by
  fin_cases h <;> decide

lemma digit_not_dot {c : Char} (h : c ∈ digitChars) : (['.'].contains c) = false := by
  fin_cases h <;> decide

lemma dropWhile_eq_self {α : Type} {p : α → Bool} {l : List α}
    (h : ∀ c ∈ l, p c = false) : l.dropWhile p = l := by
  cases l with
  | nil => rfl
  | cons a t =>
    rw [List.dropWhile_cons, h a (List.mem_cons_self a t)]
    simp

lemma stripWs_eq_self {s : PyStr} (h : ∀ c ∈ s, isPyWs c = false) :
    stripWs s = s := by
  unfold stripWs
  rw [dropWhile_eq_self h]
  rw [dropWhile_eq_self (fun c hc => h c (List.mem_reverse.mp hc))]
  exact List.reverse_reverse s

lemma takeSign_digit {c : Char} {r : PyStr} (h1 : c ≠ '-') (h2 : c ≠ '+') :
    takeSign (c :: r) = (false, c :: r) := by
  unfold takeSign
  dsimp only
  rw [if_neg h1, if_neg h2]

lemma splitFirst_miss {cs : List Char} {l : PyStr}
    (h : ∀ c ∈ l, cs.contains c = false) :
    splitFirst cs l = (l, Option.none) := by
  induction l with
  | nil => rfl
  | cons a t ih =>
    unfold splitFirst
    dsimp only
    rw [h a (List.mem_cons_self a t)]
    simp only [Bool.false_eq_true, if_false]
    rw [ih (fun c hc => h c (List.mem_cons_of_mem _ hc))]

lemma splitFirst_hit {cs : List Char} {a b : PyStr} {sep : Char}
    (ha : ∀ c ∈ a, cs.contains c = false) (hs : cs.contains sep = true) :
    splitFirst cs (a ++ sep :: b) = (a, some b) := by
  induction a with
  | nil =>
    rw [List.nil_append]
    unfold splitFirst
    dsimp only
    rw [hs]
    simp
  | cons x t ih =>
    rw [List.cons_append]
    unfold splitFirst
    dsimp only
    rw [ha x (List.mem_cons_self x t)]
    simp only [Bool.false_eq_true, if_false]
    rw [ih (fun c hc => ha c (List.mem_cons_of_mem _ hc))]


lemma natDigitsAux_mem_lt10 : ∀ (fuel n : Nat), ∀ d ∈ natDigitsAux fuel n, d < 10 := by
  intro fuel
  induction fuel with
  | zero => intro n d hd; cases hd
  | succ f ih =>
    intro n d hd
    unfold natDigitsAux at hd
    by_cases h : n < 10
    · rw [if_pos h] at hd
      rcases List.mem_singleton.mp hd with rfl
      exact h
    · rw [if_neg h] at hd
      rcases List.mem_append.mp hd with h1 | h2
      · exact ih _ d h1
      · rcases List.mem_singleton.mp h2 with rfl
        omega

lemma natDigitsAux_ne_nil (fuel n : Nat) (h : 1 ≤ fuel) :
    natDigitsAux fuel n ≠ [] := by
  cases fuel with
  | zero => omega
  | succ f =>
    unfold natDigitsAux
    by_cases hn : n < 10
    · rw [if_pos hn]; simp
    · rw [if_neg hn]; simp

lemma natToChars_mem {n : Nat} {c : Char} (h : c ∈ natToChars n) : c ∈ digitChars := by
  unfold natToChars at h
  obtain ⟨d, hd, rfl⟩ := List.mem_map.mp h
  exact digitChar_mem (natDigitsAux_mem_lt10 _ _ d hd)

lemma natToChars_ne_nil (n : Nat) : natToChars n ≠ [] := by
  unfold natToChars
  intro h
  exact natDigitsAux_ne_nil (n + 1) n (by omega) (List.map_eq_nil_iff.mp h)

/-- `int(...)` accepts the printed form of an integer, right-padded with
digits. -/
lemma pyIntParse_intToChars_pad (n : Int) (pad : PyStr)
    (hp : ∀ c ∈ pad, c ∈ digitChars) :
    ∃ m, pyIntParse (intToChars n ++ pad) = .ok m := by
  have hstrip : stripWs (intToChars n ++ pad) = intToChars n ++ pad := by
    apply stripWs_eq_self
    intro c hc
    rcases List.mem_append.mp hc with h1 | h2
    · unfold intToChars at h1
      by_cases hn : n < 0
      · rw [if_pos hn] at h1
        rcases List.mem_cons.mp h1 with rfl | h3
        · decide
        · exact digit_not_ws (natToChars_mem h3)
      · rw [if_neg hn] at h1
        exact digit_not_ws (natToChars_mem h1)
    · exact digit_not_ws (hp c h2)
  unfold pyIntParse
  rw [hstrip]
  by_cases hn : n < 0
  · unfold intToChars
    rw [if_pos hn]
    rw [List.cons_append]
    have hts : takeSign ('-' :: (natToChars n.natAbs ++ pad)) =
        (true, natToChars n.natAbs ++ pad) := by
      unfold takeSign
      dsimp only
      rw [if_pos rfl]
    rw [hts]
    dsimp only
    rw [if_pos ?hcond]
    case hcond =>
      have hne : natToChars n.natAbs ++ pad ≠ [] := by
        intro h
        exact natToChars_ne_nil n.natAbs (List.append_eq_nil.mp h).1
      rw [Bool.and_eq_true]
      constructor
      · simpa [List.isEmpty_iff] using hne
      · rw [List.all_eq_true]
        intro c hc
        rcases List.mem_append.mp hc with h1 | h2
        · exact digit_isAscii (natToChars_mem h1)
        · exact digit_isAscii (hp c h2)
    exact ⟨_, rfl⟩
  · unfold intToChars
    rw [if_neg hn]
    rcases hna : natToChars n.natAbs with _ | ⟨c0, t0⟩
    · exact absurd hna (natToChars_ne_nil n.natAbs)
    · have hc0 : c0 ∈ digitChars := natToChars_mem (by rw [hna]; exact List.mem_cons_self c0 t0)
      rw [List.cons_append]
      rw [takeSign_digit (digit_ne_dash hc0) (digit_ne_plus hc0)]
      dsimp only
      rw [if_pos ?hcond2]
      case hcond2 =>
        rw [Bool.and_eq_true]
        constructor
        · simp
        · rw [List.all_eq_true]
          intro c hc
          rcases List.mem_cons.mp hc with rfl | hc2
          · exact digit_isAscii hc0
          · rcases List.mem_append.mp hc2 with h1 | h2
            · exact digit_isAscii (natToChars_mem (by rw [hna]; exact List.mem_cons_of_mem _ h1))
            · exact digit_isAscii (hp c h2)
      exact ⟨_, rfl⟩


/-- The body of a signed numeric literal: integer digits, optional
fraction after a dot, optional exponent part. -/
def numBody (A : PyStr) (dotB : Option PyStr) (ep : Option (Bool × PyStr)) : PyStr :=
  A ++ ((match dotB with | some B => '.' :: B | Option.none => []) ++
        (match ep with
         | some (es, D) => 'E' :: (if es then '-' :: D else '+' :: D)
         | Option.none => []))

/-- A signed numeric literal: optional minus sign before the body. -/
def numShape (sgn : Bool) (A : PyStr) (dotB : Option PyStr)
    (ep : Option (Bool × PyStr)) : PyStr :=
  (if sgn then ['-'] else []) ++ numBody A dotB ep

/-- Shape hypotheses under which the decimal and float grammars accept a
`numShape` string. -/
structure NumShapeOk (A : PyStr) (dotB : Option PyStr)
    (ep : Option (Bool × PyStr)) : Prop where
  hA : ∀ c ∈ A, c ∈ digitChars
  hB : ∀ B, dotB = some B → ∀ c ∈ B, c ∈ digitChars
  hD : ∀ es D, ep = some (es, D) → (∀ c ∈ D, c ∈ digitChars) ∧ D ≠ []
  hne : A ≠ [] ∨ ∃ B, dotB = some B ∧ B ≠ []
  hhead : A = [] → dotB.isSome = true

lemma numShape_chars {sgn : Bool} {A : PyStr} {dotB : Option PyStr}
    {ep : Option (Bool × PyStr)} (hs : NumShapeOk A dotB ep) :
    ∀ c ∈ numShape sgn A dotB ep,
      c ∈ digitChars ∨ c = '-' ∨ c = '+' ∨ c = '.' ∨ c = 'E' := by
  intro c hc
  unfold numShape numBody at hc
  rcases List.mem_append.mp hc with h1 | h2
  · right; left
    rcases sgn with _ | _
    · simp at h1
    · simpa using h1
  · rcases List.mem_append.mp h2 with h3 | h4
    · exact Or.inl (hs.hA c h3)
    · rcases List.mem_append.mp h4 with h5 | h6
      · rcases dotB with _ | B
        · cases h5
        · rcases List.mem_cons.mp h5 with rfl | h7
          · right; right; right; left; rfl
          · exact Or.inl (hs.hB B rfl c h7)
      · rcases ep with _ | ⟨es, D⟩
        · cases h6
        · rcases List.mem_cons.mp h6 with rfl | h7
          · right; right; right; right; rfl
          · rcases es with _ | _
            · simp only [Bool.false_eq_true, if_false] at h7
              rcases List.mem_cons.mp h7 with rfl | h8
              · right; right; left; rfl
              · exact Or.inl ((hs.hD false D rfl).1 c h8)
            · simp only [if_true] at h7
              rcases List.mem_cons.mp h7 with rfl | h8
              · right; left; rfl
              · exact Or.inl ((hs.hD true D rfl).1 c h8)

lemma numShape_not_ws {sgn : Bool} {A : PyStr} {dotB : Option PyStr}
    {ep : Option (Bool × PyStr)} (hs : NumShapeOk A dotB ep) :
    ∀ c ∈ numShape sgn A dotB ep, isPyWs c = false := by
  intro c hc
  rcases numShape_chars hs c hc with h | h | h | h | h
  · exact digit_not_ws h
  all_goals (subst h; decide)

/-- From a digit or a dot, `takeSign` strips nothing; from the minus
sign of a negative literal, it strips the sign. -/
lemma numShape_takeSign {sgn : Bool} {A : PyStr} {dotB : Option PyStr}
    {ep : Option (Bool × PyStr)} (hs : NumShapeOk A dotB ep) :
    takeSign (numShape sgn A dotB ep) = (sgn, numBody A dotB ep) := by
  rcases sgn with _ | _
  · unfold numShape
    simp only [Bool.false_eq_true, if_false, List.nil_append]
    unfold numBody
    rcases hA : A with _ | ⟨a0, t0⟩
    · have hdot := hs.hhead hA
      rcases dotB with _ | B
      · cases hdot
      · rw [List.nil_append, List.cons_append]
        exact takeSign_digit (by decide) (by decide)
    · have ha0 : a0 ∈ digitChars :=
        hs.hA a0 (by rw [hA]; exact List.mem_cons_self a0 t0)
      rw [List.cons_append]
      exact takeSign_digit (digit_ne_dash ha0) (digit_ne_plus ha0)
  · unfold numShape
    simp only [if_true]
    rw [List.singleton_append]
    unfold takeSign
    dsimp only
    rw [if_pos rfl]

lemma numShape_guard {A fp : PyStr}
    (hA : ∀ c ∈ A, c ∈ digitChars) (hfp : ∀ c ∈ fp, c ∈ digitChars)
    (hne : A ≠ [] ∨ fp ≠ []) :
    (!(A.all isAsciiDigit && fp.all isAsciiDigit &&
       !(A.isEmpty && fp.isEmpty))) = false := by
  have h1 : A.all isAsciiDigit = true :=
    List.all_eq_true.mpr (fun c hc => digit_isAscii (hA c hc))
  have h2 : fp.all isAsciiDigit = true :=
    List.all_eq_true.mpr (fun c hc => digit_isAscii (hfp c hc))
  have h3 : (A.isEmpty && fp.isEmpty) = false := by
    rcases hne with h | h
    · rw [Bool.and_eq_false_iff]; left; simpa [List.isEmpty_iff] using h
    · rw [Bool.and_eq_false_iff]; right; simpa [List.isEmpty_iff] using h
  rw [h1, h2, h3]
  rfl

lemma takeSign_expPart {es : Bool} {D : PyStr} :
    takeSign (if es then '-' :: D else '+' :: D) = (es, D) := by
  rcases es with _ | _
  · simp only [Bool.false_eq_true, if_false]
    unfold takeSign
    dsimp only
    rw [if_neg (by decide), if_pos rfl]
  · simp only [if_true]
    unfold takeSign
    dsimp only
    rw [if_pos rfl]

lemma expPart_guard {D : PyStr}
    (hD : ∀ c ∈ D, c ∈ digitChars) (hne : D ≠ []) :
    (!D.isEmpty && D.all isAsciiDigit) = true := by
  rw [Bool.and_eq_true]
  constructor
  · simpa [List.isEmpty_iff] using hne
  · exact List.all_eq_true.mpr (fun c hc => digit_isAscii (hD c hc))

lemma pyDecParse_numShape {sgn : Bool} {A : PyStr} {dotB : Option PyStr}
    {ep : Option (Bool × PyStr)} (hs : NumShapeOk A dotB ep) :
    ∃ d, pyDecParse (numShape sgn A dotB ep) = .ok d := by
  unfold pyDecParse
  rw [stripWs_eq_self (numShape_not_ws hs), numShape_takeSign hs]
  dsimp only
  rcases ep with _ | ⟨es, D⟩ <;> rcases dotB with _ | B
  · -- no exponent, no dot
    have hne : A ≠ [] := by
      rcases hs.hne with h | ⟨B, hB, _⟩
      · exact h
      · cases hB
    have hsE : splitFirst ['e', 'E'] (numBody A Option.none Option.none) =
        (A, Option.none) := by
      unfold numBody
      simp only [List.append_nil]
      exact splitFirst_miss (fun c hc => digit_not_eE (hs.hA c hc))
    rw [hsE]
    dsimp only
    have hsD : splitFirst ['.'] A = (A, Option.none) :=
      splitFirst_miss (fun c hc => digit_not_dot (hs.hA c hc))
    rw [hsD]
    dsimp only
    rw [if_neg (by rw [numShape_guard hs.hA (by intro c hc; cases hc) (Or.inl hne)]; exact Bool.false_ne_true)]
    exact ⟨_, rfl⟩
  · -- no exponent, dot
    have hsE : splitFirst ['e', 'E'] (numBody A (some B) Option.none) =
        (A ++ '.' :: B, Option.none) := by
      unfold numBody
      simp only [List.append_nil]
      apply splitFirst_miss
      intro c hc
      rcases List.mem_append.mp hc with h1 | h2
      · exact digit_not_eE (hs.hA c h1)
      · rcases List.mem_cons.mp h2 with rfl | h3
        · decide
        · exact digit_not_eE (hs.hB B rfl c h3)
    rw [hsE]
    dsimp only
    have hsD : splitFirst ['.'] (A ++ '.' :: B) = (A, some B) :=
      splitFirst_hit (fun c hc => digit_not_dot (hs.hA c hc)) (by decide)
    rw [hsD]
    dsimp only [Option.getD_some]
    have hBd : ∀ c ∈ B, c ∈ digitChars := hs.hB B rfl
    have hne2 : A ≠ [] ∨ B ≠ [] := by
      rcases hs.hne with h | ⟨B2, hB1, hB2⟩
      · exact Or.inl h
      · injection hB1 with hBB
        subst hBB
        exact Or.inr hB2
    rw [if_neg (by rw [numShape_guard hs.hA hBd hne2]; exact Bool.false_ne_true)]
    exact ⟨_, rfl⟩
  · -- exponent, no dot
    have hne : A ≠ [] := by
      rcases hs.hne with h | ⟨B, hB, _⟩
      · exact h
      · cases hB
    obtain ⟨hDdig, hDne⟩ := hs.hD es D rfl
    have hsE : splitFirst ['e', 'E'] (numBody A Option.none (some (es, D))) =
        (A, some (if es then '-' :: D else '+' :: D)) := by
      unfold numBody
      rw [List.nil_append]
      exact splitFirst_hit (fun c hc => digit_not_eE (hs.hA c hc)) (by decide)
    rw [hsE]
    dsimp only
    have hsD : splitFirst ['.'] A = (A, Option.none) :=
      splitFirst_miss (fun c hc => digit_not_dot (hs.hA c hc))
    rw [hsD]
    dsimp only
    rw [if_neg (by rw [numShape_guard hs.hA (by intro c hc; cases hc) (Or.inl hne)]; exact Bool.false_ne_true)]
    rw [takeSign_expPart]
    dsimp only
    rw [if_pos (expPart_guard hDdig hDne)]
    dsimp only
    exact ⟨_, rfl⟩
  · -- exponent and dot
    obtain ⟨hDdig, hDne⟩ := hs.hD es D rfl
    have hBd : ∀ c ∈ B, c ∈ digitChars := hs.hB B rfl
    have hsE : splitFirst ['e', 'E'] (numBody A (some B) (some (es, D))) =
        (A ++ '.' :: B, some (if es then '-' :: D else '+' :: D)) := by
      unfold numBody
      rw [← List.append_assoc]
      apply splitFirst_hit ?h1 (by decide)
      intro c hc
      rcases List.mem_append.mp hc with h1 | h2
      · exact digit_not_eE (hs.hA c h1)
      · rcases List.mem_cons.mp h2 with rfl | h3
        · decide
        · exact digit_not_eE (hBd c h3)
    rw [hsE]
    dsimp only
    have hsD : splitFirst ['.'] (A ++ '.' :: B) = (A, some B) :=
      splitFirst_hit (fun c hc => digit_not_dot (hs.hA c hc)) (by decide)
    rw [hsD]
    dsimp only [Option.getD_some]
    have hne2 : A ≠ [] ∨ B ≠ [] := by
      rcases hs.hne with h | ⟨B2, hB1, hB2⟩
      · exact Or.inl h
      · injection hB1 with hBB
        subst hBB
        exact Or.inr hB2
    rw [if_neg (by rw [numShape_guard hs.hA hBd hne2]; exact Bool.false_ne_true)]
    rw [takeSign_expPart]
    dsimp only
    rw [if_pos (expPart_guard hDdig hDne)]
    dsimp only
    exact ⟨_, rfl⟩

lemma pyFloatParse_numShape {sgn : Bool} {A : PyStr} {dotB : Option PyStr}
    {ep : Option (Bool × PyStr)} (hs : NumShapeOk A dotB ep) :
    ∃ q, pyFloatParse (numShape sgn A dotB ep) = .ok q := by
  unfold pyFloatParse
  rw [stripWs_eq_self (numShape_not_ws hs), numShape_takeSign hs]
  dsimp only
  rcases ep with _ | ⟨es, D⟩ <;> rcases dotB with _ | B
  · -- no exponent, no dot
    have hne : A ≠ [] := by
      rcases hs.hne with h | ⟨B, hB, _⟩
      · exact h
      · cases hB
    have hsE : splitFirst ['e', 'E'] (numBody A Option.none Option.none) =
        (A, Option.none) := by
      unfold numBody
      simp only [List.append_nil]
      exact splitFirst_miss (fun c hc => digit_not_eE (hs.hA c hc))
    rw [hsE]
    dsimp only
    have hsD : splitFirst ['.'] A = (A, Option.none) :=
      splitFirst_miss (fun c hc => digit_not_dot (hs.hA c hc))
    rw [hsD]
    dsimp only
    rw [if_neg (by rw [numShape_guard hs.hA (by intro c hc; cases hc) (Or.inl hne)]; exact Bool.false_ne_true)]
    exact ⟨_, rfl⟩
  · -- no exponent, dot
    have hsE : splitFirst ['e', 'E'] (numBody A (some B) Option.none) =
        (A ++ '.' :: B, Option.none) := by
      unfold numBody
      simp only [List.append_nil]
      apply splitFirst_miss
      intro c hc
      rcases List.mem_append.mp hc with h1 | h2
      · exact digit_not_eE (hs.hA c h1)
      · rcases List.mem_cons.mp h2 with rfl | h3
        · decide
        · exact digit_not_eE (hs.hB B rfl c h3)
    rw [hsE]
    dsimp only
    have hsD : splitFirst ['.'] (A ++ '.' :: B) = (A, some B) :=
      splitFirst_hit (fun c hc => digit_not_dot (hs.hA c hc)) (by decide)
    rw [hsD]
    dsimp only [Option.getD_some]
    have hBd : ∀ c ∈ B, c ∈ digitChars := hs.hB B rfl
    have hne2 : A ≠ [] ∨ B ≠ [] := by
      rcases hs.hne with h | ⟨B2, hB1, hB2⟩
      · exact Or.inl h
      · injection hB1 with hBB
        subst hBB
        exact Or.inr hB2
    rw [if_neg (by rw [numShape_guard hs.hA hBd hne2]; exact Bool.false_ne_true)]
    exact ⟨_, rfl⟩
  · -- exponent, no dot
    have hne : A ≠ [] := by
      rcases hs.hne with h | ⟨B, hB, _⟩
      · exact h
      · cases hB
    obtain ⟨hDdig, hDne⟩ := hs.hD es D rfl
    have hsE : splitFirst ['e', 'E'] (numBody A Option.none (some (es, D))) =
        (A, some (if es then '-' :: D else '+' :: D)) := by
      unfold numBody
      rw [List.nil_append]
      exact splitFirst_hit (fun c hc => digit_not_eE (hs.hA c hc)) (by decide)
    rw [hsE]
    dsimp only
    have hsD : splitFirst ['.'] A = (A, Option.none) :=
      splitFirst_miss (fun c hc => digit_not_dot (hs.hA c hc))
    rw [hsD]
    dsimp only
    rw [if_neg (by rw [numShape_guard hs.hA (by intro c hc; cases hc) (Or.inl hne)]; exact Bool.false_ne_true)]
    rw [takeSign_expPart]
    dsimp only
    rw [if_pos (expPart_guard hDdig hDne)]
    dsimp only
    exact ⟨_, rfl⟩
  · -- exponent and dot
    obtain ⟨hDdig, hDne⟩ := hs.hD es D rfl
    have hBd : ∀ c ∈ B, c ∈ digitChars := hs.hB B rfl
    have hsE : splitFirst ['e', 'E'] (numBody A (some B) (some (es, D))) =
        (A ++ '.' :: B, some (if es then '-' :: D else '+' :: D)) := by
      unfold numBody
      rw [← List.append_assoc]
      apply splitFirst_hit ?h1 (by decide)
      intro c hc
      rcases List.mem_append.mp hc with h1 | h2
      · exact digit_not_eE (hs.hA c h1)
      · rcases List.mem_cons.mp h2 with rfl | h3
        · decide
        · exact digit_not_eE (hBd c h3)
    rw [hsE]
    dsimp only
    have hsD : splitFirst ['.'] (A ++ '.' :: B) = (A, some B) :=
      splitFirst_hit (fun c hc => digit_not_dot (hs.hA c hc)) (by decide)
    rw [hsD]
    dsimp only [Option.getD_some]
    have hne2 : A ≠ [] ∨ B ≠ [] := by
      rcases hs.hne with h | ⟨B2, hB1, hB2⟩
      · exact Or.inl h
      · injection hB1 with hBB
        subst hBB
        exact Or.inr hB2
    rw [if_neg (by rw [numShape_guard hs.hA hBd hne2]; exact Bool.false_ne_true)]
    rw [takeSign_expPart]
    dsimp only
    rw [if_pos (expPart_guard hDdig hDne)]
    dsimp only
    exact ⟨_, rfl⟩


lemma decToStr_digit_chars {d : Dec} (hwf : d.wf = true) :
    ∀ c ∈ d.digits.map Nat.digitChar, c ∈ digitChars := by
  intro c hc
  obtain ⟨x, hx, rfl⟩ := List.mem_map.mp hc
  rw [Dec.wf, Bool.and_eq_true] at hwf
  exact digitChar_mem (by simpa using (List.all_eq_true.mp hwf.2 x hx))

lemma decToStr_ds_ne_nil {d : Dec} (hwf : d.wf = true) :
    d.digits.map Nat.digitChar ≠ [] := by
  rw [Dec.wf, Bool.and_eq_true] at hwf
  intro h
  rw [List.map_eq_nil_iff] at h
  rw [h] at hwf
  simp at hwf

lemma pyDecParse_ok_of_eq {s : PyStr} {sgn : Bool} {A : PyStr}
    {dotB : Option PyStr} {ep : Option (Bool × PyStr)}
    (hs : NumShapeOk A dotB ep) (he : s = numShape sgn A dotB ep) :
    ∃ d2, pyDecParse s = .ok d2 := by
  rw [he]
  exact pyDecParse_numShape hs

lemma pyFloatParse_ok_of_eq {s : PyStr} {sgn : Bool} {A : PyStr}
    {dotB : Option PyStr} {ep : Option (Bool × PyStr)}
    (hs : NumShapeOk A dotB ep) (he : s = numShape sgn A dotB ep) :
    ∃ q2, pyFloatParse s = .ok q2 := by
  rw [he]
  exact pyFloatParse_numShape hs

/-- `Decimal(...)` accepts the printed form of a well-formed decimal,
right-padded with digit characters. -/
lemma pyDecParse_toStr_pad (d : Dec) (hwf : d.wf = true) (pad : PyStr)
    (hpad : ∀ c ∈ pad, c ∈ digitChars) :
    ∃ d2, pyDecParse (Dec.toStr d ++ pad) = .ok d2 := by
  have hds := decToStr_digit_chars hwf
  have hdsne := decToStr_ds_ne_nil hwf
  set ds := d.digits.map Nat.digitChar with hdsdef
  unfold Dec.toStr
  rw [← hdsdef]
  dsimp only
  by_cases h1 : d.exp ≤ 0 ∧ -6 ≤ d.exp + (ds.length : Int) - 1
  · rw [if_pos h1]
    by_cases h2 : d.exp = 0
    · rw [if_pos h2]
      have hok : NumShapeOk (ds ++ pad) Option.none Option.none := by
        constructor
        · intro c hc
          rcases List.mem_append.mp hc with h | h
          · exact hds c h
          · exact hpad c h
        · intro B hB; cases hB
        · intro es D hD; cases hD
        · exact Or.inl (fun h => hdsne (List.append_eq_nil.mp h).1)
        · intro h; exact absurd (List.append_eq_nil.mp h).1 hdsne
      have heq : (if d.sign then '-' :: ds else ds) ++ pad =
          numShape d.sign (ds ++ pad) Option.none Option.none := by
        unfold numShape numBody
        rcases d.sign with _ | _ <;> simp
      exact pyDecParse_ok_of_eq hok heq
    · rw [if_neg h2]
      by_cases h3 : (0:Int) < (ds.length : Int) + d.exp
      · rw [if_pos h3]
        have htake : ds.take ((ds.length : Int) + d.exp).toNat ≠ [] := by
          intro h
          rw [List.take_eq_nil_iff] at h
          rcases h with h | h
          · omega
          · exact hdsne h
        have hok : NumShapeOk (ds.take ((ds.length : Int) + d.exp).toNat)
            (some (ds.drop ((ds.length : Int) + d.exp).toNat ++ pad))
            Option.none := by
          constructor
          · intro c hc; exact hds c (List.mem_of_mem_take hc)
          · intro B hB
            injection hB with hBB
            subst hBB
            intro c hc
            rcases List.mem_append.mp hc with h | h
            · exact hds c (List.mem_of_mem_drop h)
            · exact hpad c h
          · intro es D hD; cases hD
          · exact Or.inl htake
          · intro h; exact absurd h htake
        have heq : (if d.sign then
              '-' :: (ds.take ((ds.length : Int) + d.exp).toNat ++
                '.' :: ds.drop ((ds.length : Int) + d.exp).toNat)
            else ds.take ((ds.length : Int) + d.exp).toNat ++
                '.' :: ds.drop ((ds.length : Int) + d.exp).toNat) ++ pad =
            numShape d.sign (ds.take ((ds.length : Int) + d.exp).toNat)
              (some (ds.drop ((ds.length : Int) + d.exp).toNat ++ pad))
              Option.none := by
          unfold numShape numBody
          rcases d.sign with _ | _ <;> simp
        exact pyDecParse_ok_of_eq hok heq
      · rw [if_neg h3]
        have hok : NumShapeOk ['0']
            (some (List.replicate (-((ds.length : Int) + d.exp)).toNat '0' ++ ds ++ pad))
            Option.none := by
          constructor
          · intro c hc; rcases List.mem_singleton.mp hc with rfl; decide
          · intro B hB
            injection hB with hBB
            subst hBB
            intro c hc
            rcases List.mem_append.mp hc with h | h
            · rcases List.mem_append.mp h with h2 | h2
              · rw [List.eq_of_mem_replicate h2]; decide
              · exact hds c h2
            · exact hpad c h
          · intro es D hD; cases hD
          · exact Or.inl (by simp)
          · intro h; cases h
        have heq : (if d.sign then
              '-' :: ('0' :: '.' ::
                List.replicate (-((ds.length : Int) + d.exp)).toNat '0' ++ ds)
            else '0' :: '.' ::
                List.replicate (-((ds.length : Int) + d.exp)).toNat '0' ++ ds) ++ pad =
            numShape d.sign ['0']
              (some (List.replicate (-((ds.length : Int) + d.exp)).toNat '0' ++ ds ++ pad))
              Option.none := by
          unfold numShape numBody
          rcases d.sign with _ | _ <;> simp
        exact pyDecParse_ok_of_eq hok heq
  · rw [if_neg h1]
    rcases hds2 : ds with _ | ⟨c0, t0⟩
    · exact absurd hds2 hdsne
    · have hc0 : c0 ∈ digitChars := hds c0 (by rw [hds2]; exact List.mem_cons_self c0 t0)
      by_cases hadj : (0:Int) ≤ d.exp + ((c0 :: t0).length : Int) - 1
      · rw [if_pos hadj]
        rw [show intToChars (d.exp + ((c0 :: t0).length : Int) - 1) =
            natToChars (d.exp + ((c0 :: t0).length : Int) - 1).natAbs from by
          unfold intToChars; rw [if_neg (by omega)]]
        rcases t0 with _ | ⟨c1, t1⟩
        · have hDd : ∀ c ∈ natToChars (d.exp + ([c0].length : Int) - 1).natAbs ++ pad,
              c ∈ digitChars := by
            intro c hc
            rcases List.mem_append.mp hc with h | h
            · exact natToChars_mem h
            · exact hpad c h
          have hDne : natToChars (d.exp + ([c0].length : Int) - 1).natAbs ++ pad ≠ [] :=
            fun h => natToChars_ne_nil _ (List.append_eq_nil.mp h).1
          have hok : NumShapeOk [c0] Option.none
              (some (false, natToChars (d.exp + ([c0].length : Int) - 1).natAbs ++ pad)) := by
            constructor
            · intro c hc; rcases List.mem_singleton.mp hc with rfl; exact hc0
            · intro B hB; cases hB
            · intro es D hD
              injection hD with hDD
              injection hDD with hD1 hD2
              subst hD2
              exact ⟨hDd, hDne⟩
            · exact Or.inl (by simp)
            · intro h; cases h
          have heq : (if d.sign then
                '-' :: ([c0] ++ 'E' :: '+' ::
                  natToChars (d.exp + ([c0].length : Int) - 1).natAbs)
              else [c0] ++ 'E' :: '+' ::
                  natToChars (d.exp + ([c0].length : Int) - 1).natAbs) ++ pad =
              numShape d.sign [c0] Option.none
                (some (false, natToChars (d.exp + ([c0].length : Int) - 1).natAbs ++ pad)) := by
            unfold numShape numBody
            rcases d.sign with _ | _ <;> simp
          exact pyDecParse_ok_of_eq hok heq
        · have hc1 : c1 ∈ digitChars := hds c1 (by rw [hds2]; simp)
          have ht1 : ∀ c ∈ t1, c ∈ digitChars := by
            intro c hc
            exact hds c (by rw [hds2]; simp [hc])
          have hDd : ∀ c ∈ natToChars (d.exp + ((c0 :: c1 :: t1).length : Int) - 1).natAbs ++ pad,
              c ∈ digitChars := by
            intro c hc
            rcases List.mem_append.mp hc with h | h
            · exact natToChars_mem h
            · exact hpad c h
          have hDne : natToChars (d.exp + ((c0 :: c1 :: t1).length : Int) - 1).natAbs ++ pad ≠ [] :=
            fun h => natToChars_ne_nil _ (List.append_eq_nil.mp h).1
          have hok : NumShapeOk [c0] (some (c1 :: t1))
              (some (false, natToChars (d.exp + ((c0 :: c1 :: t1).length : Int) - 1).natAbs ++ pad)) := by
            constructor
            · intro c hc; rcases List.mem_singleton.mp hc with rfl; exact hc0
            · intro B hB
              injection hB with hBB
              subst hBB
              intro c hc
              rcases List.mem_cons.mp hc with rfl | h2
              · exact hc1
              · exact ht1 c h2
            · intro es D hD
              injection hD with hDD
              injection hDD with hD1 hD2
              subst hD2
              exact ⟨hDd, hDne⟩
            · exact Or.inl (by simp)
            · intro h; cases h
          have heq : (if d.sign then
                '-' :: ((c0 :: '.' :: c1 :: t1) ++ 'E' :: '+' ::
                  natToChars (d.exp + ((c0 :: c1 :: t1).length : Int) - 1).natAbs)
              else (c0 :: '.' :: c1 :: t1) ++ 'E' :: '+' ::
                  natToChars (d.exp + ((c0 :: c1 :: t1).length : Int) - 1).natAbs) ++ pad =
              numShape d.sign [c0] (some (c1 :: t1))
                (some (false, natToChars (d.exp + ((c0 :: c1 :: t1).length : Int) - 1).natAbs ++ pad)) := by
            unfold numShape numBody
            rcases d.sign with _ | _ <;> simp
          exact pyDecParse_ok_of_eq hok heq
      · rw [if_neg hadj]
        rw [show intToChars (d.exp + ((c0 :: t0).length : Int) - 1) =
            '-' :: natToChars (d.exp + ((c0 :: t0).length : Int) - 1).natAbs from by
          unfold intToChars; rw [if_pos (by omega)]]
        rcases t0 with _ | ⟨c1, t1⟩
        · have hDd : ∀ c ∈ natToChars (d.exp + ([c0].length : Int) - 1).natAbs ++ pad,
              c ∈ digitChars := by
            intro c hc
            rcases List.mem_append.mp hc with h | h
            · exact natToChars_mem h
            · exact hpad c h
          have hDne : natToChars (d.exp + ([c0].length : Int) - 1).natAbs ++ pad ≠ [] :=
            fun h => natToChars_ne_nil _ (List.append_eq_nil.mp h).1
          have hok : NumShapeOk [c0] Option.none
              (some (true, natToChars (d.exp + ([c0].length : Int) - 1).natAbs ++ pad)) := by
            constructor
            · intro c hc; rcases List.mem_singleton.mp hc with rfl; exact hc0
            · intro B hB; cases hB
            · intro es D hD
              injection hD with hDD
              injection hDD with hD1 hD2
              subst hD2
              exact ⟨hDd, hDne⟩
            · exact Or.inl (by simp)
            · intro h; cases h
          have heq : (if d.sign then
                '-' :: ([c0] ++ 'E' :: '-' ::
                  natToChars (d.exp + ([c0].length : Int) - 1).natAbs)
              else [c0] ++ 'E' :: '-' ::
                  natToChars (d.exp + ([c0].length : Int) - 1).natAbs) ++ pad =
              numShape d.sign [c0] Option.none
                (some (true, natToChars (d.exp + ([c0].length : Int) - 1).natAbs ++ pad)) := by
            unfold numShape numBody
            rcases d.sign with _ | _ <;> simp
          exact pyDecParse_ok_of_eq hok heq
        · have hc1 : c1 ∈ digitChars := hds c1 (by rw [hds2]; simp)
          have ht1 : ∀ c ∈ t1, c ∈ digitChars := by
            intro c hc
            exact hds c (by rw [hds2]; simp [hc])
          have hDd : ∀ c ∈ natToChars (d.exp + ((c0 :: c1 :: t1).length : Int) - 1).natAbs ++ pad,
              c ∈ digitChars := by
            intro c hc
            rcases List.mem_append.mp hc with h | h
            · exact natToChars_mem h
            · exact hpad c h
          have hDne : natToChars (d.exp + ((c0 :: c1 :: t1).length : Int) - 1).natAbs ++ pad ≠ [] :=
            fun h => natToChars_ne_nil _ (List.append_eq_nil.mp h).1
          have hok : NumShapeOk [c0] (some (c1 :: t1))
              (some (true, natToChars (d.exp + ((c0 :: c1 :: t1).length : Int) - 1).natAbs ++ pad)) := by
            constructor
            · intro c hc; rcases List.mem_singleton.mp hc with rfl; exact hc0
            · intro B hB
              injection hB with hBB
              subst hBB
              intro c hc
              rcases List.mem_cons.mp hc with rfl | h2
              · exact hc1
              · exact ht1 c h2
            · intro es D hD
              injection hD with hDD
              injection hDD with hD1 hD2
              subst hD2
              exact ⟨hDd, hDne⟩
            · exact Or.inl (by simp)
            · intro h; cases h
          have heq : (if d.sign then
                '-' :: ((c0 :: '.' :: c1 :: t1) ++ 'E' :: '-' ::
                  natToChars (d.exp + ((c0 :: c1 :: t1).length : Int) - 1).natAbs)
              else (c0 :: '.' :: c1 :: t1) ++ 'E' :: '-' ::
                  natToChars (d.exp + ((c0 :: c1 :: t1).length : Int) - 1).natAbs) ++ pad =
              numShape d.sign [c0] (some (c1 :: t1))
                (some (true, natToChars (d.exp + ((c0 :: c1 :: t1).length : Int) - 1).natAbs ++ pad)) := by
            unfold numShape numBody
            rcases d.sign with _ | _ <;> simp
          exact pyDecParse_ok_of_eq hok heq


lemma fracDigits_lt10 : ∀ (k : Nat) (q : ℚ), 0 ≤ q → q < 1 →
    ∀ d ∈ fracDigits q k, d < 10 := by
  intro k
  induction k with
  | zero => intro q _ _ d hd; cases hd
  | succ n ih =>
    intro q hq0 hq1 d hd
    unfold fracDigits at hd
    rcases List.mem_cons.mp hd with rfl | h2
    · have hlt : (⌊q * 10⌋ : Int) < 10 := by
        rw [Int.floor_lt]
        push_cast
        linarith
      have hge : (0 : Int) ≤ ⌊q * 10⌋ := Int.floor_nonneg.mpr (by linarith)
      omega
    · have h0 : (0:ℚ) ≤ q * 10 - ⌊q * 10⌋ := by
        have := Int.fract_nonneg (q * 10)
        rwa [Int.fract] at this
      have h1 : q * 10 - ⌊q * 10⌋ < 1 := by
        have := Int.fract_lt_one (q * 10)
        rwa [Int.fract] at this
      exact ih _ h0 h1 d h2

lemma floatToStr_frac_digits (q : ℚ) :
    ∀ c ∈ (if ((fracDigits (|q| - ⌊|q|⌋) 17).reverse.dropWhile (· = 0)).reverse.isEmpty
           then ['0']
           else ((fracDigits (|q| - ⌊|q|⌋) 17).reverse.dropWhile (· = 0)).reverse.map
                  Nat.digitChar),
      c ∈ digitChars := by
  intro c hc
  split at hc
  · rcases List.mem_singleton.mp hc with rfl; decide
  · obtain ⟨x, hx, rfl⟩ := List.mem_map.mp hc
    apply digitChar_mem
    have hx2 : x ∈ fracDigits (|q| - ⌊|q|⌋) 17 := by
      rw [List.mem_reverse] at hx
      have := (List.dropWhile_sublist (l := (fracDigits (|q| - ⌊|q|⌋) 17).reverse)
        (p := (· = 0))).subset hx
      rwa [List.mem_reverse] at this
    refine fracDigits_lt10 17 _ ?_ ?_ x hx2
    · have := Int.fract_nonneg (|q|)
      rwa [Int.fract] at this
    · have := Int.fract_lt_one (|q|)
      rwa [Int.fract] at this

/-- `float(...)` accepts the printed form of a model float, right-padded
with digit characters. -/
lemma pyFloatParse_floatToStr_pad (q : ℚ) (pad : PyStr)
    (hpad : ∀ c ∈ pad, c ∈ digitChars) :
    ∃ q2, pyFloatParse (floatToStr q ++ pad) = .ok q2 := by
  unfold floatToStr
  dsimp only
  have hok : NumShapeOk (natToChars (⌊|q|⌋).toNat)
      (some ((if ((fracDigits (|q| - ⌊|q|⌋) 17).reverse.dropWhile (· = 0)).reverse.isEmpty
              then ['0']
              else ((fracDigits (|q| - ⌊|q|⌋) 17).reverse.dropWhile (· = 0)).reverse.map
                     Nat.digitChar) ++ pad))
      Option.none := by
    constructor
    · intro c hc; exact natToChars_mem hc
    · intro B hB
      injection hB with hBB
      subst hBB
      intro c hc
      rcases List.mem_append.mp hc with h | h
      · exact floatToStr_frac_digits q c h
      · exact hpad c h
    · intro es D hD; cases hD
    · exact Or.inl (natToChars_ne_nil _)
    · intro h; exact absurd h (natToChars_ne_nil _)
  have heq : ((if q < 0 then ['-'] else []) ++ natToChars (⌊|q|⌋).toNat ++
      '.' :: (if ((fracDigits (|q| - ⌊|q|⌋) 17).reverse.dropWhile (· = 0)).reverse.isEmpty
              then ['0']
              else ((fracDigits (|q| - ⌊|q|⌋) 17).reverse.dropWhile (· = 0)).reverse.map
                     Nat.digitChar)) ++ pad =
      numShape (decide (q < 0)) (natToChars (⌊|q|⌋).toNat)
        (some ((if ((fracDigits (|q| - ⌊|q|⌋) 17).reverse.dropWhile (· = 0)).reverse.isEmpty
                then ['0']
                else ((fracDigits (|q| - ⌊|q|⌋) 17).reverse.dropWhile (· = 0)).reverse.map
                       Nat.digitChar) ++ pad))
        Option.none := by
    unfold numShape numBody
    by_cases hq : q < 0
    · rw [if_pos hq, decide_eq_true hq]
      simp
    · rw [if_neg hq, decide_eq_false hq]
      simp
  exact pyFloatParse_ok_of_eq hok heq


/-!
## Rank bookkeeping and `set_worst` success lemmas for the Type Widener
-/

/-- The preference rank as a total function; `None`, absent from the
preference tuple, sits at the out-of-band value 6. -/
def Scalar.rankNat : Scalar → Nat
  | .dt _ => 0
  | .bool _ => 1
  | .int _ => 2
  | .dec _ => 3
  | .float _ => 4
  | .str _ => 5
  | .none => 6

lemma rankE_eq {d : Scalar} (h : d ≠ Scalar.none) : d.rankE = .ok d.rankNat := by
  cases d <;> first | rfl | exact absurd rfl h

/-- A coerced scalar is well formed when a decimal payload satisfies the
invariants the Python `Decimal` constructor guarantees. -/
def Scalar.wfB : Scalar → Bool
  | .dec d => d.wf
  | _ => true

lemma rank_negAbs (s : Scalar) : s.negAbs.rankNat = s.rankNat := by
  cases s <;> rfl

lemma rank_ite_negAbs (c : Bool) (s : Scalar) :
    (if c then s.negAbs else s).rankNat = s.rankNat := by
  cases c
  · simp
  · simp [rank_negAbs]

lemma charDigits_lt10 {l : PyStr} (h : l.all isAsciiDigit = true) :
    ∀ d ∈ charDigits l, d < 10 := by
  intro d hd
  rcases List.mem_map.mp hd with ⟨c, hc, rfl⟩
  have hcd : isAsciiDigit c = true := List.all_eq_true.mp h c hc
  simp only [isAsciiDigit, Bool.and_eq_true, decide_eq_true_eq] at hcd
  obtain ⟨h1, h2⟩ := hcd
  have g1 : ('0').toNat ≤ c.toNat := h1
  have g2 : c.toNat ≤ ('9').toNat := h2
  have e9 : ('9').toNat = 57 := rfl
  omega

/-- Every decimal the string constructor returns is well formed. -/
lemma pyDecParse_wf {s : PyStr} {d : Dec} (h : pyDecParse s = .ok d) :
    d.wf = true := by
  unfold pyDecParse at h
  rcases hts : takeSign (stripWs s) with ⟨neg, r⟩
  rw [hts] at h
  dsimp only at h
  rcases hs1 : splitFirst ['e', 'E'] r with ⟨mant, expPart⟩
  rw [hs1] at h
  dsimp only at h
  rcases hs2 : splitFirst ['.'] mant with ⟨ip, fpOpt⟩
  rw [hs2] at h
  dsimp only at h
  split at h
  · exact absurd h (by simp)
  · rename_i hguard
    have hg : (ip.all isAsciiDigit && (fpOpt.getD []).all isAsciiDigit &&
        !(ip.isEmpty && (fpOpt.getD []).isEmpty)) = true := by
      revert hguard
      cases (ip.all isAsciiDigit && (fpOpt.getD []).all isAsciiDigit &&
        !(ip.isEmpty && (fpOpt.getD []).isEmpty)) <;> simp
    split at h
    · exact absurd h (by simp)
    · rename_i ev hev
      have hd : d = ⟨neg,
          (if ((charDigits (ip ++ (fpOpt.getD []))).dropWhile (· = 0)).isEmpty
           then [0]
           else (charDigits (ip ++ (fpOpt.getD []))).dropWhile (· = 0)),
          ev - (fpOpt.getD []).length⟩ := by
        have := h
        injection this with h2
        exact h2.symm
      subst hd
      unfold Dec.wf
      dsimp only
      have hall : ∀ x ∈ charDigits (ip ++ (fpOpt.getD [])), x < 10 := by
        apply charDigits_lt10
        rw [List.all_append]
        simp only [Bool.and_eq_true] at hg ⊢
        exact ⟨hg.1.1, hg.1.2⟩
      by_cases he : ((charDigits (ip ++ (fpOpt.getD []))).dropWhile (· = 0)).isEmpty = true
      · rw [if_pos he]
        decide
      · rw [if_neg he]
        rw [Bool.and_eq_true]
        constructor
        · simpa using he
        · rw [List.all_eq_true]
          intro x hx
          have hx2 : x ∈ charDigits (ip ++ (fpOpt.getD [])) :=
            List.Sublist.mem hx (List.dropWhile_sublist _)
          simpa using hall x hx2

lemma dec_sign_of_rat_neg {d : Dec} (h : d.rat < 0) : d.sign = true := by
  by_contra hs
  rw [Bool.not_eq_true] at hs
  unfold Dec.rat at h
  rw [hs] at h
  simp only [Bool.false_eq_true, if_false, one_mul] at h
  have h1 : (0:ℚ) ≤ (natDigitsVal d.digits : ℚ) := Nat.cast_nonneg _
  have h2 : (0:ℚ) < (10:ℚ) ^ d.exp := by positivity
  nlinarith

/-- When the value is negative, `-abs(x)` gives the value back. -/
lemma negAbs_eq_self {d : Scalar} (h : d.ltZero = true) : d.negAbs = d := by
  cases d with
  | int n =>
    have hn : n < 0 := by simpa [Scalar.ltZero] using h
    simp only [Scalar.negAbs]
    congr 1
    omega
  | dec dd =>
    have hs : dd.sign = true := dec_sign_of_rat_neg (by simpa [Scalar.ltZero] using h)
    simp only [Scalar.negAbs]
    congr 1
    cases dd
    simp_all
  | float q =>
    have hq : q < 0 := by simpa [Scalar.ltZero] using h
    simp only [Scalar.negAbs]
    congr 1
    rw [abs_of_neg hq]
    ring
  | none => simp [Scalar.ltZero] at h
  | bool b => simp [Scalar.ltZero] at h
  | str s => simp [Scalar.ltZero] at h
  | dt t => simp [Scalar.ltZero] at h

lemma pad_digits (k : Nat) : ∀ c ∈ List.replicate k '0', c ∈ digitChars := by
  intro c hc
  rw [List.eq_of_mem_replicate hc]
  decide


lemma ite_negAbs_self (c : Bool) (d : Scalar) (hc : c = true → d.ltZero = true) :
    (if c then d.negAbs else d) = d := by
  cases c
  · simp
  · simp only [if_true]
    exact negAbs_eq_self (hc rfl)

/-- `set_worst` with the initial empty-string worst returns the new value
unchanged: the `abs('')` failure skips the replacement and the padding,
and the sign restoration reproduces a negative value exactly. -/
lemma set_worst_empty (d : Scalar) : set_worst (Scalar.str []) d = Except.ok d := by
  cases d with
  | bool b => rfl
  | none =>
    unfold set_worst
    dsimp only [Scalar.pyAbs, Scalar.pyStr, List.length_nil]
    rw [if_neg (Nat.not_lt_zero _)]
    rfl
  | str s =>
    unfold set_worst
    dsimp only [Scalar.pyAbs, Scalar.pyStr, List.length_nil]
    rw [if_neg (Nat.not_lt_zero _)]
    rfl
  | dt t =>
    unfold set_worst
    dsimp only [Scalar.pyAbs, Scalar.pyStr, List.length_nil]
    rw [if_neg (Nat.not_lt_zero _)]
    rfl
  | int n =>
    unfold set_worst
    dsimp only [Scalar.pyAbs, Scalar.hasNeg, Scalar.ltZero, Scalar.pyStr,
      List.length_nil]
    rw [if_neg (Nat.not_lt_zero _)]
    by_cases hn : n < 0
    · simp only [Bool.false_and, Bool.false_or, Bool.true_and,
        decide_eq_true hn, if_true, Scalar.negAbs]
      congr 2
      omega
    · simp only [Bool.false_and, Bool.false_or, Bool.true_and,
        decide_eq_false hn, if_false]
      simp
  | dec dd =>
    unfold set_worst
    dsimp only [Scalar.pyAbs, Scalar.hasNeg, Scalar.ltZero, Scalar.pyStr,
      List.length_nil]
    rw [if_neg (Nat.not_lt_zero _)]
    by_cases hq : dd.rat < 0
    · simp only [Bool.false_and, Bool.false_or, Bool.true_and,
        decide_eq_true hq, if_true, Scalar.negAbs]
      have hs := dec_sign_of_rat_neg hq
      congr 1
      cases dd
      simp_all
    · simp only [Bool.false_and, Bool.false_or, Bool.true_and,
        decide_eq_false hq, if_false]
      simp
  | float q =>
    unfold set_worst
    dsimp only [Scalar.pyAbs, Scalar.hasNeg, Scalar.ltZero, Scalar.pyStr,
      List.length_nil]
    rw [if_neg (Nat.not_lt_zero _)]
    by_cases hq : q < 0
    · simp only [Bool.false_and, Bool.false_or, Bool.true_and,
        decide_eq_true hq, if_true, Scalar.negAbs]
      congr 1
      rw [abs_of_neg hq, neg_neg]
    · simp only [Bool.false_and, Bool.false_or, Bool.true_and,
        decide_eq_false hq, if_false]
      simp

/-- `set_worst` on a datetime new value whose printed form already is
wide enough, with an old worst that has no `abs` and no `__neg__` (the
worsts that precede a datetime: strings and datetimes), returns the
datetime unchanged. -/
lemma set_worst_dt (old : Scalar) (t : PyDateTime)
    (habs : old.pyAbs = Option.none) (hneg : old.hasNeg = false)
    (hlen : ¬ ((Scalar.dt t).pyStr.length < old.pyStr.length)) :
    set_worst old (.dt t) = .ok (.dt t) := by
  unfold set_worst
  dsimp only
  rw [habs, hneg]
  dsimp only
  rw [if_neg hlen]
  rfl


/-- `set_worst` succeeds on any integer new value and returns an
integer. -/
lemma set_worst_ok_int (old : Scalar) (n : Int) :
    ∃ w, set_worst old (Scalar.int n) = .ok w ∧ w.rankNat = 2 := by
  unfold set_worst
  dsimp only
  rcases ha : old.pyAbs with _ | o
  · dsimp only
    by_cases hl : ((Scalar.int n).pyStr).length < (old.pyStr).length
    · rw [if_pos hl]
      have hps : (Scalar.int n).pyStr = intToChars n := rfl
      obtain ⟨v, hv⟩ := pyIntParse_intToChars_pad n
        (List.replicate ((old.pyStr).length - (intToChars n).length) '0')
        (pad_digits _)
      dsimp only [reparseAs, ljustZero]
      rw [hps, hv]
      dsimp only [Except.map]
      exact ⟨_, rfl, by rw [rank_ite_negAbs]; rfl⟩
    · rw [if_neg hl]
      exact ⟨_, rfl, by rw [rank_ite_negAbs]; rfl⟩
  · dsimp only [Scalar.pyAbs]
    by_cases hl : ((Scalar.int (n.natAbs : Int)).pyStr).length < (o.pyStr).length
    · rw [if_pos hl]
      have hps : (Scalar.int (n.natAbs : Int)).pyStr = intToChars (n.natAbs : Int) := rfl
      obtain ⟨v, hv⟩ := pyIntParse_intToChars_pad (n.natAbs : Int)
        (List.replicate ((o.pyStr).length - (intToChars (n.natAbs : Int)).length) '0')
        (pad_digits _)
      dsimp only [reparseAs, ljustZero]
      rw [hps, hv]
      dsimp only [Except.map]
      exact ⟨_, rfl, by rw [rank_ite_negAbs]; rfl⟩
    · rw [if_neg hl]
      exact ⟨_, rfl, by rw [rank_ite_negAbs]; rfl⟩


/-- `set_worst` succeeds on any string new value and returns a
string. -/
lemma set_worst_ok_str (old : Scalar) (s : PyStr) :
    ∃ w, set_worst old (Scalar.str s) = .ok w ∧ w.rankNat = 5 := by
  unfold set_worst
  dsimp only
  rcases ha : old.pyAbs with _ | o
  · dsimp only
    by_cases hl : ((Scalar.str s).pyStr).length < (old.pyStr).length
    · rw [if_pos hl]
      dsimp only [reparseAs]
      exact ⟨_, rfl, by rw [rank_ite_negAbs]; rfl⟩
    · rw [if_neg hl]
      exact ⟨_, rfl, by rw [rank_ite_negAbs]; rfl⟩
  · dsimp only [Scalar.pyAbs]
    by_cases hl : ((Scalar.str s).pyStr).length < (o.pyStr).length
    · rw [if_pos hl]
      dsimp only [reparseAs]
      exact ⟨_, rfl, by rw [rank_ite_negAbs]; rfl⟩
    · rw [if_neg hl]
      exact ⟨_, rfl, by rw [rank_ite_negAbs]; rfl⟩

/-- `set_worst` succeeds on any well-formed decimal new value and
returns a decimal. -/
lemma set_worst_ok_dec (old : Scalar) (d : Dec) (hwf : d.wf = true) :
    ∃ w, set_worst old (Scalar.dec d) = .ok w ∧ w.rankNat = 3 := by
  unfold set_worst
  dsimp only
  rcases ha : old.pyAbs with _ | o
  · dsimp only
    by_cases hl : ((Scalar.dec d).pyStr).length < (old.pyStr).length
    · rw [if_pos hl]
      have hps : (Scalar.dec d).pyStr = Dec.toStr d := rfl
      obtain ⟨v, hv⟩ := pyDecParse_toStr_pad d hwf
        (List.replicate ((old.pyStr).length - (Dec.toStr d).length) '0')
        (pad_digits _)
      dsimp only [reparseAs, ljustZero]
      rw [hps, hv]
      dsimp only [Except.map]
      exact ⟨_, rfl, by rw [rank_ite_negAbs]; rfl⟩
    · rw [if_neg hl]
      exact ⟨_, rfl, by rw [rank_ite_negAbs]; rfl⟩
  · dsimp only [Scalar.pyAbs]
    have hwf2 : (Dec.mk false d.digits d.exp).wf = true := hwf
    by_cases hl : ((Scalar.dec (Dec.mk false d.digits d.exp)).pyStr).length < (o.pyStr).length
    · rw [if_pos hl]
      have hps : (Scalar.dec (Dec.mk false d.digits d.exp)).pyStr =
        Dec.toStr (Dec.mk false d.digits d.exp) := rfl
      obtain ⟨v, hv⟩ := pyDecParse_toStr_pad (Dec.mk false d.digits d.exp) hwf2
        (List.replicate ((o.pyStr).length - (Dec.toStr (Dec.mk false d.digits d.exp)).length) '0')
        (pad_digits _)
      dsimp only [reparseAs, ljustZero]
      rw [hps, hv]
      dsimp only [Except.map]
      exact ⟨_, rfl, by rw [rank_ite_negAbs]; rfl⟩
    · rw [if_neg hl]
      exact ⟨_, rfl, by rw [rank_ite_negAbs]; rfl⟩

/-- `set_worst` succeeds on any float new value and returns a float. -/
lemma set_worst_ok_float (old : Scalar) (q : ℚ) :
    ∃ w, set_worst old (Scalar.float q) = .ok w ∧ w.rankNat = 4 := by
  unfold set_worst
  dsimp only
  rcases ha : old.pyAbs with _ | o
  · dsimp only
    by_cases hl : ((Scalar.float q).pyStr).length < (old.pyStr).length
    · rw [if_pos hl]
      have hps : (Scalar.float q).pyStr = floatToStr q := rfl
      obtain ⟨v, hv⟩ := pyFloatParse_floatToStr_pad q
        (List.replicate ((old.pyStr).length - (floatToStr q).length) '0')
        (pad_digits _)
      dsimp only [reparseAs, ljustZero]
      rw [hps, hv]
      dsimp only [Except.map]
      exact ⟨_, rfl, by rw [rank_ite_negAbs]; rfl⟩
    · rw [if_neg hl]
      exact ⟨_, rfl, by rw [rank_ite_negAbs]; rfl⟩
  · dsimp only [Scalar.pyAbs]
    by_cases hl : ((Scalar.float |q|).pyStr).length < (o.pyStr).length
    · rw [if_pos hl]
      have hps : (Scalar.float |q|).pyStr = floatToStr |q| := rfl
      obtain ⟨v, hv⟩ := pyFloatParse_floatToStr_pad |q|
        (List.replicate ((o.pyStr).length - (floatToStr |q|).length) '0')
        (pad_digits _)
      dsimp only [reparseAs, ljustZero]
      rw [hps, hv]
      dsimp only [Except.map]
      exact ⟨_, rfl, by rw [rank_ite_negAbs]; rfl⟩
    · rw [if_neg hl]
      exact ⟨_, rfl, by rw [rank_ite_negAbs]; rfl⟩


/-- The 9-filled string `"9"*m ++ "." ++ "9"*n` parses as a decimal as
soon as one side is nonempty. -/
lemma pyDecParse_nines (m n : Nat) (h : 1 ≤ m ∨ 1 ≤ n) :
    ∃ d, pyDecParse (List.replicate m '9' ++ '.' :: List.replicate n '9') = .ok d := by
  have hok : NumShapeOk (List.replicate m '9') (some (List.replicate n '9'))
      Option.none := by
    constructor
    · intro c hc
      rw [List.eq_of_mem_replicate hc]
      decide
    · intro B hB c hc
      injection hB with hB2
      rw [← hB2] at hc
      rw [List.eq_of_mem_replicate hc]
      decide
    · intro es D hD
      cases hD
    · rcases h with h1 | h1
      · left
        intro hcon
        have hcl := congrArg List.length hcon
        simp at hcl
        omega
      · right
        refine ⟨List.replicate n '9', rfl, ?_⟩
        intro hcon
        have hcl := congrArg List.length hcon
        simp at hcl
        omega
    · intro _
      rfl
  have heq : List.replicate m '9' ++ '.' :: List.replicate n '9' =
      numShape false (List.replicate m '9') (some (List.replicate n '9'))
        Option.none := by
    simp [numShape, numBody]
  exact pyDecParse_ok_of_eq hok heq

/-- `worst_decimal` succeeds whenever its first argument is a
well-formed decimal, and its result is a well-formed decimal. -/
lemma worst_decimal_ok (d1 dw : Dec) (hwf : d1.wf = true) :
    ∃ d9, worst_decimal (Scalar.dec d1) (Scalar.dec dw) = .ok (Scalar.dec d9) ∧
      d9.wf = true := by
  have hlen1 : 1 ≤ d1.digits.length := by
    unfold Dec.wf at hwf
    rw [Bool.and_eq_true] at hwf
    have hne : d1.digits ≠ [] := by
      intro hcon
      rw [hcon] at hwf
      simp at hwf
    exact List.length_pos.mpr hne
  unfold worst_decimal
  dsimp only [places_b4_and_after_decimal]
  have hmn : 1 ≤ (max ((d1.digits.length : Int) + d1.exp)
        ((dw.digits.length : Int) + dw.exp)).toNat ∨
      1 ≤ max (max (-d1.exp) 0).toNat (max (-dw.exp) 0).toNat := by
    by_cases he : 0 ≤ d1.exp
    · left
      have h1 : (1:Int) ≤ (d1.digits.length : Int) + d1.exp := by
        have : (1:Int) ≤ (d1.digits.length : Int) := by exact_mod_cast hlen1
        omega
      have h2 : (1:Int) ≤ max ((d1.digits.length : Int) + d1.exp)
          ((dw.digits.length : Int) + dw.exp) := le_trans h1 (le_max_left _ _)
      omega
    · right
      have h1 : (1:Int) ≤ max (-d1.exp) 0 :=
        le_trans (by omega) (le_max_left _ _)
      have h2 : 1 ≤ (max (-d1.exp) 0).toNat := by omega
      exact le_trans h2 (Nat.le_max_left _ _)
  obtain ⟨d9, h9⟩ := pyDecParse_nines _ _ hmn
  refine ⟨d9, ?_, pyDecParse_wf h9⟩
  rw [h9]
  rfl

/-- The first iteration of the widening loop, from the initial state
`(0, "")`, yields the value itself at its own rank. -/
lemma bw_step_init (d : Scalar) (hd : d ≠ Scalar.none) :
    bw_step (0, Scalar.str []) d = .ok (d.rankNat, d) := by
  unfold bw_step
  dsimp only
  rw [rankE_eq hd]
  dsimp only [Bind.bind, Except.bind]
  cases d with
  | none => exact absurd rfl hd
  | dt t =>
    dsimp only [Scalar.rankNat]
    rw [if_neg (lt_irrefl 0), if_pos rfl]
    try dsimp only
    have hlen : ((Scalar.str []).pyStr).length < ((Scalar.dt t).pyStr).length := by
      simp [Scalar.pyStr, PyDateTime.toStr, zpad]
    rw [if_pos hlen, set_worst_empty]
    rfl
  | bool b =>
    dsimp only [Scalar.rankNat]
    rw [if_pos (by norm_num), set_worst_empty]
    rfl
  | int n =>
    dsimp only [Scalar.rankNat]
    rw [if_pos (by norm_num), set_worst_empty]
    rfl
  | dec dd =>
    dsimp only [Scalar.rankNat]
    rw [if_pos (by norm_num), set_worst_empty]
    rfl
  | float q =>
    dsimp only [Scalar.rankNat]
    rw [if_pos (by norm_num), set_worst_empty]
    rfl
  | str s =>
    dsimp only [Scalar.rankNat]
    rw [if_pos (by norm_num), set_worst_empty]
    rfl

/-- Second loop iteration when the new value ranks strictly higher: the
result takes the new rank and a value of the new kind. -/
lemma bw_step_lt {w d2 : Scalar} (hlt : w.rankNat < d2.rankNat)
    (h2 : d2 ≠ Scalar.none) (hwf2 : d2.wfB = true) :
    ∃ v, bw_step (w.rankNat, w) d2 = .ok (d2.rankNat, v) ∧
      v.rankNat = d2.rankNat := by
  unfold bw_step
  dsimp only
  rw [rankE_eq h2]
  dsimp only [Bind.bind, Except.bind]
  rw [if_pos hlt]
  cases d2 with
  | none => exact absurd rfl h2
  | dt t => exact absurd hlt (by simp [Scalar.rankNat])
  | bool b => exact ⟨Scalar.bool b, rfl, rfl⟩
  | int n =>
    obtain ⟨v, hv, hr⟩ := set_worst_ok_int w n
    rw [hv]
    exact ⟨v, rfl, by rw [hr]; rfl⟩
  | dec d =>
    have hwf : d.wf = true := hwf2
    obtain ⟨v, hv, hr⟩ := set_worst_ok_dec w d hwf
    rw [hv]
    exact ⟨v, rfl, by rw [hr]; rfl⟩
  | float q =>
    obtain ⟨v, hv, hr⟩ := set_worst_ok_float w q
    rw [hv]
    exact ⟨v, rfl, by rw [hr]; rfl⟩
  | str s =>
    obtain ⟨v, hv, hr⟩ := set_worst_ok_str w s
    rw [hv]
    exact ⟨v, rfl, by rw [hr]; rfl⟩

/-- Second loop iteration when the new value ranks strictly lower: the
state is kept unchanged. -/
lemma bw_step_gt {w d2 : Scalar} (hgt : d2.rankNat < w.rankNat)
    (h2 : d2 ≠ Scalar.none) :
    bw_step (w.rankNat, w) d2 = .ok (w.rankNat, w) := by
  unfold bw_step
  dsimp only
  rw [rankE_eq h2]
  dsimp only [Bind.bind, Except.bind]
  rw [if_neg (Nat.lt_asymm hgt), if_neg (Nat.ne_of_lt hgt)]
  rfl

/-- Second loop iteration at equal rank: the state keeps the rank and
the result value keeps the kind. -/
lemma bw_step_eqr {w d2 : Scalar} (heq : d2.rankNat = w.rankNat)
    (h2 : d2 ≠ Scalar.none) (hwf2 : d2.wfB = true) :
    ∃ v, bw_step (w.rankNat, w) d2 = .ok (w.rankNat, v) ∧
      v.rankNat = w.rankNat := by
  unfold bw_step
  dsimp only
  rw [rankE_eq h2]
  dsimp only [Bind.bind, Except.bind]
  rw [if_neg (by rw [heq]; exact lt_irrefl _), if_pos heq]
  cases d2 with
  | none => exact absurd rfl h2
  | dt t =>
    cases w with
    | dt tw =>
      try dsimp only
      by_cases hl : ((Scalar.dt tw).pyStr).length < ((Scalar.dt t).pyStr).length
      · rw [if_pos hl, set_worst_dt (Scalar.dt tw) t rfl rfl (Nat.lt_asymm hl)]
        exact ⟨Scalar.dt t, rfl, rfl⟩
      · rw [if_neg hl]
        exact ⟨Scalar.dt tw, rfl, rfl⟩
    | bool bw => simp [Scalar.rankNat] at heq
    | int nw => simp [Scalar.rankNat] at heq
    | dec dw => simp [Scalar.rankNat] at heq
    | float qw => simp [Scalar.rankNat] at heq
    | str sw => simp [Scalar.rankNat] at heq
    | none => simp [Scalar.rankNat] at heq
  | bool b =>
    cases w with
    | dt tw => simp [Scalar.rankNat] at heq
    | bool bw =>
      try dsimp only
      by_cases hl : ((Scalar.bool bw).pyStr).length < ((Scalar.bool b).pyStr).length
      · rw [if_pos hl]
        exact ⟨Scalar.bool b, rfl, rfl⟩
      · rw [if_neg hl]
        exact ⟨Scalar.bool bw, rfl, rfl⟩
    | int nw => simp [Scalar.rankNat] at heq
    | dec dw => simp [Scalar.rankNat] at heq
    | float qw => simp [Scalar.rankNat] at heq
    | str sw => simp [Scalar.rankNat] at heq
    | none => simp [Scalar.rankNat] at heq
  | int n =>
    cases w with
    | dt tw => simp [Scalar.rankNat] at heq
    | bool bw => simp [Scalar.rankNat] at heq
    | int nw =>
      try dsimp only
      by_cases hl : ((Scalar.int nw).pyStr).length < ((Scalar.int n).pyStr).length
      · rw [if_pos hl]
        obtain ⟨v, hv, hr⟩ := set_worst_ok_int (Scalar.int nw) n
        rw [hv]
        exact ⟨v, rfl, by rw [hr]; rfl⟩
      · rw [if_neg hl]
        exact ⟨Scalar.int nw, rfl, rfl⟩
    | dec dw => simp [Scalar.rankNat] at heq
    | float qw => simp [Scalar.rankNat] at heq
    | str sw => simp [Scalar.rankNat] at heq
    | none => simp [Scalar.rankNat] at heq
  | str s =>
    cases w with
    | dt tw => simp [Scalar.rankNat] at heq
    | bool bw => simp [Scalar.rankNat] at heq
    | int nw => simp [Scalar.rankNat] at heq
    | dec dw => simp [Scalar.rankNat] at heq
    | float qw => simp [Scalar.rankNat] at heq
    | str sw =>
      try dsimp only
      by_cases hl : ((Scalar.str sw).pyStr).length < ((Scalar.str s).pyStr).length
      · rw [if_pos hl]
        obtain ⟨v, hv, hr⟩ := set_worst_ok_str (Scalar.str sw) s
        rw [hv]
        exact ⟨v, rfl, by rw [hr]; rfl⟩
      · rw [if_neg hl]
        exact ⟨Scalar.str sw, rfl, rfl⟩
    | none => simp [Scalar.rankNat] at heq
  | dec d =>
    cases w with
    | dt tw => simp [Scalar.rankNat] at heq
    | bool bw => simp [Scalar.rankNat] at heq
    | int nw => simp [Scalar.rankNat] at heq
    | dec dw =>
      try dsimp only
      have hwf : d.wf = true := hwf2
      obtain ⟨d9, h9, hwf9⟩ := worst_decimal_ok d dw hwf
      rw [h9]
      try dsimp only
      obtain ⟨v, hv, hr⟩ := set_worst_ok_dec (Scalar.dec dw) d9 hwf9
      rw [hv]
      exact ⟨v, rfl, by rw [hr]; rfl⟩
    | float qw => simp [Scalar.rankNat] at heq
    | str sw => simp [Scalar.rankNat] at heq
    | none => simp [Scalar.rankNat] at heq
  | float q =>
    cases w with
    | dt tw => simp [Scalar.rankNat] at heq
    | bool bw => simp [Scalar.rankNat] at heq
    | int nw => simp [Scalar.rankNat] at heq
    | dec dw => simp [Scalar.rankNat] at heq
    | float qw =>
      try dsimp only
      by_cases hq : q < qw
      · have hm : pyMax2 (Scalar.float q) (Scalar.float qw) =
            .ok (Scalar.float qw) := by
          unfold pyMax2 pyLt
          dsimp only [Scalar.ratOf, Bind.bind, Except.bind]
          rw [decide_eq_true hq]
          rfl
        rw [hm]
        try dsimp only
        obtain ⟨v, hv, hr⟩ := set_worst_ok_float (Scalar.float qw) qw
        rw [hv]
        exact ⟨v, rfl, by rw [hr]; rfl⟩
      · have hm : pyMax2 (Scalar.float q) (Scalar.float qw) =
            .ok (Scalar.float q) := by
          unfold pyMax2 pyLt
          dsimp only [Scalar.ratOf, Bind.bind, Except.bind]
          rw [decide_eq_false hq]
          rfl
        rw [hm]
        try dsimp only
        obtain ⟨v, hv, hr⟩ := set_worst_ok_float (Scalar.float qw) q
        rw [hv]
        exact ⟨v, rfl, by rw [hr]; rfl⟩
    | str sw => simp [Scalar.rankNat] at heq
    | none => simp [Scalar.rankNat] at heq


/-- One full run of the widening loop: for non-`None` inputs with a
non-blank second argument, `best_representative` succeeds and the result
rank is the maximum of the two input ranks. -/
lemma widen_ok_rank (a b : Scalar) (ha : a ≠ Scalar.none)
    (hb : b ≠ Scalar.none) (hbb : isBlankStr b = false) (hwb : b.wfB = true) :
    ∃ u, best_representative a b = .ok u ∧
      u.rankNat = max a.rankNat b.rankNat := by
  unfold best_representative
  rw [if_neg (by rw [hbb]; exact Bool.false_ne_true)]
  rw [if_neg ha, if_neg hb]
  dsimp only [Bind.bind, Except.bind]
  rw [bw_step_init a ha]
  dsimp only
  rcases Nat.lt_trichotomy a.rankNat b.rankNat with hlt | heq | hgt
  · obtain ⟨v, hv, hr⟩ := bw_step_lt hlt hb hwb
    rw [hv]
    refine ⟨v, rfl, ?_⟩
    rw [hr, Nat.max_eq_right (Nat.le_of_lt hlt)]
  · obtain ⟨v, hv, hr⟩ := bw_step_eqr heq.symm hb hwb
    rw [hv]
    refine ⟨v, rfl, ?_⟩
    rw [hr, heq, Nat.max_self]
  · rw [bw_step_gt hgt hb]
    refine ⟨a, rfl, ?_⟩
    rw [Nat.max_eq_left (Nat.le_of_lt hgt)]

/-- C1 (amended): `best_representative` is not commutative on values,
but for non-`None`, non-blank, well-formed inputs both argument orders
succeed and agree on the preference rank of the result, which is the
maximum (least specific) of the two input ranks. -/
theorem widen_rank_commutative (a b : Scalar)
    (ha : a ≠ Scalar.none) (hb : b ≠ Scalar.none)
    (hba : isBlankStr a = false) (hbb : isBlankStr b = false)
    (hwa : a.wfB = true) (hwb : b.wfB = true) :
    ∃ u v, best_representative a b = .ok u ∧ best_representative b a = .ok v ∧
      u.rankNat = v.rankNat ∧ u.rankNat = max a.rankNat b.rankNat := by
  obtain ⟨u, hu, hru⟩ := widen_ok_rank a b ha hb hbb hwb
  obtain ⟨v, hv, hrv⟩ := widen_ok_rank b a hb ha hba hwa
  exact ⟨u, v, hu, hv, by rw [hru, hrv, Nat.max_comm], hru⟩

theorem widen_rank_commutative_witness :
    ∃ u v, best_representative (Scalar.int 3) (Scalar.str ['x']) = .ok u ∧
      best_representative (Scalar.str ['x']) (Scalar.int 3) = .ok v ∧
      u.rankNat = v.rankNat ∧
      u.rankNat = max (Scalar.int 3).rankNat (Scalar.str ['x']).rankNat :=
  widen_rank_commutative (Scalar.int 3) (Scalar.str ['x'])
    (by decide) (by decide) (by decide) (by decide) (by decide) (by decide)

/-- `set_worst` of a string over an integer worst: the result is the
string zero-padded to the printed width of the absolute integer. -/
lemma set_worst_int_str (n : Int) (s : PyStr) :
    ∃ s2, set_worst (Scalar.int n) (Scalar.str s) = .ok (Scalar.str s2) ∧
      s2.length = max (intToChars (n.natAbs : Int)).length s.length := by
  unfold set_worst
  dsimp only [Scalar.pyAbs]
  by_cases hl : ((Scalar.str s).pyStr).length <
      ((Scalar.int (n.natAbs : Int)).pyStr).length
  · rw [if_pos hl]
    dsimp only [reparseAs, ljustZero, Scalar.pyStr, Scalar.negAbs]
    rw [ite_self]
    refine ⟨_, rfl, ?_⟩
    have hl2 : s.length < (intToChars (n.natAbs : Int)).length := hl
    simp only [List.length_append, List.length_replicate]
    omega
  · rw [if_neg hl]
    dsimp only [Scalar.negAbs]
    rw [ite_self]
    refine ⟨s, rfl, ?_⟩
    have hl2 : (intToChars (n.natAbs : Int)).length ≤ s.length :=
      Nat.le_of_not_lt hl
    omega


/-- C6 (amended): when the preference ranks differ, the widened value
takes the type of the maximum (less specific) rank; in the
Integer-then-Text order the resulting string is at least as long as the
printed form of the nonnegative integer and of the text. -/
theorem widen_lower_rank_type (a b : Scalar)
    (ha : a ≠ Scalar.none) (hb : b ≠ Scalar.none)
    (hbb : isBlankStr b = false) (hwb : b.wfB = true)
    (hne : a.rankNat ≠ b.rankNat) :
    ∃ u, best_representative a b = .ok u ∧
      u.rankNat = max a.rankNat b.rankNat ∧
      (∀ n s, a = Scalar.int n → b = Scalar.str s → 0 ≤ n →
        ∃ s2, u = Scalar.str s2 ∧ (intToChars n).length ≤ s2.length ∧
          s.length ≤ s2.length) := by
  obtain ⟨u, hu, hr⟩ := widen_ok_rank a b ha hb hbb hwb
  refine ⟨u, hu, hr, ?_⟩
  rintro n s rfl rfl hn
  obtain ⟨s2, hsw, hlen⟩ := set_worst_int_str n s
  have hcomp : best_representative (Scalar.int n) (Scalar.str s) =
      .ok (Scalar.str s2) := by
    unfold best_representative
    rw [if_neg (by rw [hbb]; exact Bool.false_ne_true)]
    rw [if_neg ha, if_neg hb]
    dsimp only [Bind.bind, Except.bind]
    rw [bw_step_init _ ha]
    dsimp only
    unfold bw_step
    dsimp only
    rw [rankE_eq hb]
    dsimp only [Bind.bind, Except.bind, Scalar.rankNat]
    rw [if_pos (by norm_num)]
    rw [hsw]
    rfl
  rw [hu] at hcomp
  injection hcomp with hcomp2
  have hnn : intToChars n = intToChars (n.natAbs : Int) := by
    unfold intToChars
    rw [if_neg (by omega), if_neg (by omega)]
    congr 1
  refine ⟨s2, hcomp2, ?_, ?_⟩
  · rw [hlen, hnn]
    exact le_max_left _ _
  · rw [hlen]
    exact le_max_right _ _

theorem widen_lower_rank_type_witness :
    ∃ u, best_representative (Scalar.int 311920)
        (Scalar.str ['4', '8', '-', '4', '9']) = .ok u ∧
      u.rankNat = max (Scalar.int 311920).rankNat
        (Scalar.str ['4', '8', '-', '4', '9']).rankNat ∧
      (∀ n s, Scalar.int 311920 = Scalar.int n →
        Scalar.str ['4', '8', '-', '4', '9'] = Scalar.str s → 0 ≤ n →
        ∃ s2, u = Scalar.str s2 ∧ (intToChars n).length ≤ s2.length ∧
          s.length ≤ s2.length) :=
  widen_lower_rank_type (Scalar.int 311920) (Scalar.str ['4', '8', '-', '4', '9'])
    (by decide) (by decide) (by decide) (by decide) (by decide)


/-!
## The Key Assigner on a duplicated candidate
-/

/-- The pure accumulator of `set(pk_values)`: fold the values, keeping
each one only when no member of the seen list is Python-equal to it. -/
def seenFold (ss : List Scalar) (seen : List Scalar) : List Scalar :=
  ss.foldl (fun acc s => if acc.any (pyEq s ·) then acc else s :: acc) seen

lemma seenFold_cons (s : Scalar) (ss seen : List Scalar) :
    seenFold (s :: ss) seen =
      seenFold ss (if seen.any (pyEq s ·) then seen else s :: seen) := rfl

lemma seenFold_len : ∀ (ss seen : List Scalar),
    (seenFold ss seen).length ≤ seen.length + ss.length := by
  intro ss
  induction ss with
  | nil => intro seen; simp [seenFold]
  | cons s t ih =>
    intro seen
    rw [seenFold_cons]
    by_cases h : seen.any (pyEq s ·) = true
    · rw [if_pos h]
      have := ih seen
      simp only [List.length_cons]
      omega
    · rw [if_neg h]
      have := ih (s :: seen)
      simp only [List.length_cons] at this ⊢
      omega

lemma seenFold_dup : ∀ (l2 l3 seen : List Scalar) (s2 : Scalar),
    (∃ y ∈ seen, pyEq s2 y = true) →
    (seenFold (l2 ++ s2 :: l3) seen).length <
      seen.length + (l2 ++ s2 :: l3).length := by
  intro l2
  induction l2 with
  | nil =>
    intro l3 seen s2 hse
    simp only [List.nil_append]
    rw [seenFold_cons]
    have hany : seen.any (pyEq s2 ·) = true := by
      rw [List.any_eq_true]
      obtain ⟨y, hy, he⟩ := hse
      exact ⟨y, hy, he⟩
    rw [if_pos hany]
    have := seenFold_len l3 seen
    simp only [List.length_cons]
    omega
  | cons x t ih =>
    intro l3 seen s2 hse
    simp only [List.cons_append]
    rw [seenFold_cons]
    by_cases h : seen.any (pyEq x ·) = true
    · rw [if_pos h]
      have := ih l3 seen s2 hse
      simp only [List.length_cons] at this ⊢
      omega
    · rw [if_neg h]
      have hse2 : ∃ y ∈ x :: seen, pyEq s2 y = true := by
        obtain ⟨y, hy, he⟩ := hse
        exact ⟨y, List.mem_cons_of_mem _ hy, he⟩
      have := ih l3 (x :: seen) s2 hse2
      simp only [List.length_cons] at this ⊢
      omega

/-- Every processed element has a Python-equal representative in the
final seen list. -/
lemma seenFold_subset : ∀ (ss seen : List Scalar), seen ⊆ seenFold ss seen := by
  intro ss
  induction ss with
  | nil => intro seen a ha; exact ha
  | cons s t ih =>
    intro seen a ha
    rw [seenFold_cons]
    refine ih _ ?_
    by_cases h : seen.any (pyEq s ·) = true
    · rw [if_pos h]
      exact ha
    · rw [if_neg h]
      exact List.mem_cons_of_mem _ ha

lemma seenFold_covers : ∀ (ss seen : List Scalar) (x : Scalar), x ∈ ss →
    ∃ y ∈ seenFold ss seen, pyEq x y = true := by
  intro ss
  induction ss with
  | nil => intro seen x hx; cases hx
  | cons s t ih =>
    intro seen x hx
    rw [seenFold_cons]
    rcases List.mem_cons.mp hx with rfl | hx2
    · by_cases h : seen.any (pyEq x ·) = true
      · rw [if_pos h]
        rw [List.any_eq_true] at h
        obtain ⟨y, hy, he⟩ := h
        exact ⟨y, seenFold_subset t seen hy, he⟩
      · rw [if_neg h]
        exact ⟨x, seenFold_subset t _ (List.mem_cons_self _ _), pyEq_refl x⟩
    · exact ih _ x hx2

/-- A list holding two Python-equal scalars has strictly fewer distinct
values than elements. -/
lemma seenFold_dup_full (l1 l2 l3 : List Scalar) (s s2 : Scalar)
    (hpe : pyEq s2 s = true) :
    (seenFold ((l1 ++ s :: l2) ++ s2 :: l3) []).length <
      ((l1 ++ s :: l2) ++ s2 :: l3).length := by
  have hsplit : seenFold ((l1 ++ s :: l2) ++ s2 :: l3) [] =
      seenFold (s2 :: l3) (seenFold (l1 ++ s :: l2) []) := by
    unfold seenFold
    rw [List.foldl_append]
  rw [hsplit]
  have hlen1 : (seenFold (l1 ++ s :: l2) []).length ≤ (l1 ++ s :: l2).length := by
    have := seenFold_len (l1 ++ s :: l2) []
    simpa using this
  obtain ⟨y, hy, hys⟩ := seenFold_covers (l1 ++ s :: l2) [] s (by simp)
  have hse : ∃ y ∈ seenFold (l1 ++ s :: l2) [], pyEq s2 y = true :=
    ⟨y, hy, pyEq_trans hpe hys⟩
  have hd := seenFold_dup [] l3 (seenFold (l1 ++ s :: l2) []) s2 hse
  simp only [List.nil_append] at hd
  simp only [List.length_append, List.length_cons] at hd hlen1 ⊢
  omega

/-- On scalar-only values `set()` succeeds and counts the distinct
values of the pure fold. -/
lemma pySetSize_map_sc (ss : List Scalar) :
    pySetSize (ss.map RVal.sc) = .ok (seenFold ss []).length := by
  unfold pySetSize
  have haux : ∀ (l : List Scalar) (seen : List Scalar),
      (l.map RVal.sc).foldlM (fun (seen : List Scalar) v =>
        match v with
        | .sc s => pure (if seen.any (pyEq s ·) then seen else s :: seen)
        | _ => Except.error (.typeError (pyS "unhashable type"))) seen =
      (pure (seenFold l seen) : Except PyErr (List Scalar)) := by
    intro l
    induction l with
    | nil => intro seen; rfl
    | cons x tl ih =>
      intro seen
      rw [List.map_cons, List.foldlM_cons]
      dsimp only
      rw [pure_bind]
      rw [seenFold_cons]
      exact ih _
  rw [haux ss []]
  rfl


/-- Coercing an integer datum succeeds and yields a boolean (for the
`"0"`/`"1"` vocabulary hits) or an integer. -/
lemma coerce_int_ok (parse : PyStr → Option PyDateTime)
    (today : Nat × Nat × Nat) (n : Int) :
    ∃ c, coerce_to_specific parse today (RVal.sc (Scalar.int n)) = .ok c ∧
      c ≠ Scalar.none ∧ (∀ d, c ≠ Scalar.dec d) ∧
      (∀ q, c ≠ Scalar.float q) := by
  unfold coerce_to_specific
  dsimp only
  have hdt : dateTry parse today (RVal.sc (Scalar.int n)) = Option.none := rfl
  rw [hdt]
  dsimp only
  by_cases hf : falsyVocab.contains
      ((stripWs (pyStrR (RVal.sc (Scalar.int n)))).map Char.toLower) = true
  · rw [if_pos hf]
    exact ⟨Scalar.bool false, rfl, by simp, fun d => by simp, fun q => by simp⟩
  · rw [if_neg hf]
    by_cases ht : truthyVocab.contains
        ((stripWs (pyStrR (RVal.sc (Scalar.int n)))).map Char.toLower) = true
    · rw [if_pos ht]
      exact ⟨Scalar.bool true, rfl, by simp, fun d => by simp, fun q => by simp⟩
    · rw [if_neg ht]
      have hps : pyStrR (RVal.sc (Scalar.int n)) = intToChars n := rfl
      obtain ⟨m, hm⟩ := pyIntParse_intToChars_pad n [] (by intro c hc; cases hc)
      rw [List.append_nil] at hm
      rw [hps, hm]
      exact ⟨Scalar.int m, rfl, by simp, fun d => by simp, fun q => by simp⟩

/-- `bc_step` never fails when the datum coerces to a hashable,
non-decimal, non-float scalar. -/
lemma bc_step_ok_of (parse : PyStr → Option PyDateTime)
    (today : Nat × Nat × Nat) (st : Nat × Scalar) (datum : RVal) (c : Scalar)
    (hc : coerce_to_specific parse today datum = .ok c)
    (h0 : c ≠ Scalar.none) (hd : ∀ d, c ≠ Scalar.dec d)
    (hq : ∀ q, c ≠ Scalar.float q) :
    ∃ st2, bc_step parse today st datum = .ok st2 := by
  unfold bc_step
  rw [hc]
  dsimp only [Bind.bind, Except.bind]
  rcases st with ⟨wp, w⟩
  dsimp only
  rw [rankE_eq h0]
  dsimp only
  by_cases h1 : wp < c.rankNat
  · rw [if_pos h1]
    exact ⟨_, rfl⟩
  · rw [if_neg h1]
    by_cases h2 : c.rankNat = wp
    · rw [if_pos h2]
      cases c with
      | none => exact absurd rfl h0
      | dec d => exact absurd rfl (hd d)
      | float q2 => exact absurd rfl (hq q2)
      | bool b =>
        try dsimp only
        by_cases h3 : w.pyStr.length < (Scalar.bool b).pyStr.length
        · rw [if_pos h3]
          exact ⟨_, rfl⟩
        · rw [if_neg h3]
          exact ⟨_, rfl⟩
      | int m =>
        try dsimp only
        by_cases h3 : w.pyStr.length < (Scalar.int m).pyStr.length
        · rw [if_pos h3]
          exact ⟨_, rfl⟩
        · rw [if_neg h3]
          exact ⟨_, rfl⟩
      | str s =>
        try dsimp only
        by_cases h3 : w.pyStr.length < (Scalar.str s).pyStr.length
        · rw [if_pos h3]
          exact ⟨_, rfl⟩
        · rw [if_neg h3]
          exact ⟨_, rfl⟩
      | dt tt =>
        try dsimp only
        by_cases h3 : w.pyStr.length < (Scalar.dt tt).pyStr.length
        · rw [if_pos h3]
          exact ⟨_, rfl⟩
        · rw [if_neg h3]
          exact ⟨_, rfl⟩
    · rw [if_neg h2]
      exact ⟨_, rfl⟩

/-- The Scalar Coercer and Type Widener succeed on a column of integer
values. -/
lemma best_coercable_ints (parse : PyStr → Option PyDateTime)
    (today : Nat × Nat × Nat) (ns : List Int) :
    ∃ w, best_coercable parse today
      (ns.map (fun k => RVal.sc (Scalar.int k))) = .ok w := by
  have hfold : ∀ (l : List Int) (st : Nat × Scalar),
      ∃ st2, (l.map (fun k => RVal.sc (Scalar.int k))).foldlM
        (bc_step parse today) st = .ok st2 := by
    intro l
    induction l with
    | nil => intro st; exact ⟨st, rfl⟩
    | cons k tl ih =>
      intro st
      rw [List.map_cons, List.foldlM_cons]
      obtain ⟨c, hc, h0, hd, hq⟩ := coerce_int_ok parse today k
      obtain ⟨st1, h1⟩ := bc_step_ok_of parse today st _ c hc h0 hd hq
      rw [h1]
      dsimp only [Bind.bind, Except.bind]
      exact ih st1
  obtain ⟨st2, h2⟩ := hfold ns (0, Scalar.str [])
  refine ⟨st2.2, ?_⟩
  unfold best_coercable
  rw [h2]
  rfl


/-- A candidate whose present values are integers with a repeated value
is judged non-unique. -/
lemma suitability_dupes (parse : PyStr → Option PyDateTime)
    (today : Nat × Nat × Nat) (data : List Row) (pkn : PyStr)
    (l1 l2 l3 : List Int) (a : Int)
    (hvals : all_values_for data pkn =
      ((l1 ++ a :: l2) ++ a :: l3).map (fun k => RVal.sc (Scalar.int k))) :
    suitability_as_key parse today data pkn = .ok SuitRes.dupes := by
  unfold suitability_as_key
  rw [hvals]
  dsimp only [Bind.bind, Except.bind]
  rw [if_neg (by simp)]
  obtain ⟨w, hw⟩ := best_coercable_ints parse today ((l1 ++ a :: l2) ++ a :: l3)
  rw [hw]
  dsimp only
  have hmm : ((l1 ++ a :: l2) ++ a :: l3).map (fun k => RVal.sc (Scalar.int k)) =
      (((l1 ++ a :: l2) ++ a :: l3).map Scalar.int).map RVal.sc := by
    rw [List.map_map]
    rfl
  rw [hmm, pySetSize_map_sc]
  dsimp only
  have hlist : ((l1 ++ a :: l2) ++ a :: l3).map Scalar.int =
      (l1.map Scalar.int ++ Scalar.int a :: l2.map Scalar.int) ++
        Scalar.int a :: l3.map Scalar.int := by
    simp
  rw [hlist]
  have hlt := seenFold_dup_full (l1.map Scalar.int) (l2.map Scalar.int)
    (l3.map Scalar.int) (Scalar.int a) (Scalar.int a) (pyEq_refl _)
  rw [if_pos (by simpa using hlt)]
  rfl

/-- The single primary-key candidate `assign_pk` tests: the requested
name when truthy, else `<name>_id`. -/
def resolved_pk_candidate (t : PT) : PyStr :=
  match t.pk_name with
  | some p => if p.isEmpty then t.name ++ pyS "_id" else p
  | Option.none => t.name ++ pyS "_id"

/-- C2 (amended): when the tested candidate key is present with a
repeated value, `assign_pk` raises the unusable-key error at once; no
further candidate is tried, because only the single resolved candidate
(the requested name, or `<table>_id`) is ever examined. -/
theorem assign_pk_duplicate_fatal (parse : PyStr → Option PyDateTime)
    (today : Nat × Nat × Nat) (t : PT) (l1 l2 l3 : List Int) (a : Int)
    (hvals : all_values_for t.rows (resolved_pk_candidate t) =
      ((l1 ++ a :: l2) ++ a :: l3).map (fun k => RVal.sc (Scalar.int k))) :
    assign_pk parse today t =
      .error (.exc (dupKeyMsg t.name (resolved_pk_candidate t))) := by
  unfold assign_pk
  dsimp only [Bind.bind, Except.bind]
  have hres : (match t.pk_name with
    | some p => if p.isEmpty then t.name ++ pyS "_id" else p
    | Option.none => t.name ++ pyS "_id") = resolved_pk_candidate t := rfl
  rw [hres]
  rw [suitability_dupes parse today t.rows (resolved_pk_candidate t)
    l1 l2 l3 a hvals]

/-- The two-row table `{id: 1}, {id: 1}` with requested key `id`. -/
def c2wT : PT :=
  ⟨pyS "t",
   [[(pyS "id", RVal.sc (Scalar.int 1))], [(pyS "id", RVal.sc (Scalar.int 1))]],
   some (pyS "id"), Option.none⟩

theorem assign_pk_duplicate_fatal_witness :
    assign_pk (fun _ => Option.none) (2000, 1, 1) c2wT =
      .error (.exc (dupKeyMsg c2wT.name (resolved_pk_candidate c2wT))) :=
  assign_pk_duplicate_fatal (fun _ => Option.none) (2000, 1, 1) c2wT
    [] [] [] 1 rfl

/-- C2 counterexample: on `{id: 1}, {id: 1}` with requested key `id`
the Key Assigner raises the unusable-key error at once, although the
next candidate of the claimed sequence, `t_id`, is absent from the rows
and would be usable. -/
theorem assign_pk_no_fallback_counterexample :
    assign_pk (fun _ => Option.none) (2000, 1, 1)
        ⟨pyS "t",
         [[(pyS "id", RVal.sc (Scalar.int 1))],
          [(pyS "id", RVal.sc (Scalar.int 1))]],
         some (pyS "id"), Option.none⟩ =
      .error (.exc (dupKeyMsg (pyS "t") (pyS "id"))) ∧
    suitability_as_key (fun _ => Option.none) (2000, 1, 1)
        [[(pyS "id", RVal.sc (Scalar.int 1))],
         [(pyS "id", RVal.sc (Scalar.int 1))]] (pyS "t_id") =
      .ok SuitRes.absent := by
  constructor
  · rfl
  · rfl


/-!
## The Document Reshaper on flat record sets
-/

/-- A row is flat when every value is a scalar (no nested mapping or
list). -/
def flatRow (r : Row) : Bool :=
  r.all (fun kv => match kv.2 with | .sc _ => true | _ => false)

/-- `walk_and_clean` leaves the values of a flat row untouched. -/
lemma wacFields_flat (reserved : List PyStr) :
    ∀ (d : Row), flatRow d = true → wacFields reserved d = .ok d := by
  intro d
  induction d with
  | nil => intro h; rfl
  | cons kv rest ih =>
    intro h
    unfold flatRow at h
    rw [List.all_cons, Bool.and_eq_true] at h
    rcases kv with ⟨k, v⟩
    rcases v with s | items | dd
    · unfold wacFields
      dsimp only [walk_and_clean, Bind.bind, Except.bind]
      rw [ih h.2]
      rfl
    · exact absurd h.1 Bool.false_ne_true
    · exact absurd h.1 Bool.false_ne_true

/-- On a flat mapping, `walk_and_clean` is exactly key cleaning. -/
lemma wac_flat_row (reserved : List PyStr) (d : Row) (hd : flatRow d = true) :
    walk_and_clean reserved (RVal.dct d) =
      (cleanRowKeys reserved d).map RVal.dct := by
  unfold walk_and_clean
  rw [wacFields_flat reserved d hd]
  dsimp only [Bind.bind, Except.bind]
  cases hc : cleanRowKeys reserved d with
  | error e => rfl
  | ok r => rfl

/-- On a list of flat mappings whose keys all clean, `walk_and_clean`
returns the same rows with cleaned keys. -/
lemma wacList_flat (reserved : List PyStr) :
    ∀ (data : List Row), data.all flatRow = true →
    ∀ (cleaned : List Row), data.mapM (cleanRowKeys reserved) = .ok cleaned →
    wacList reserved (data.map RVal.dct) = .ok (cleaned.map RVal.dct) := by
  intro data
  induction data with
  | nil =>
    intro _ cleaned hm
    have : cleaned = [] := by
      have hm2 : (Except.ok [] : Except PyErr (List Row)) = .ok cleaned := hm
      injection hm2 with h2
      exact h2.symm
    subst this
    rfl
  | cons d rest ih =>
    intro hflat cleaned hm
    rw [List.all_cons, Bool.and_eq_true] at hflat
    rw [List.mapM_cons] at hm
    cases hc : cleanRowKeys reserved d with
    | error e =>
      rw [hc] at hm
      dsimp only [Bind.bind, Except.bind] at hm
      exact absurd hm (by simp)
    | ok c =>
      rw [hc] at hm
      dsimp only [Bind.bind, Except.bind] at hm
      cases hrest : rest.mapM (cleanRowKeys reserved) with
      | error e =>
        rw [hrest] at hm
        dsimp only at hm
        exact absurd hm (by simp)
      | ok cs =>
        rw [hrest] at hm
        dsimp only at hm
        have hcl : cleaned = c :: cs := by
          have hm2 : (Except.ok (c :: cs) : Except PyErr (List Row)) =
            .ok cleaned := hm
          injection hm2 with h2
          exact h2.symm
        subst hcl
        rw [List.map_cons]
        unfold wacList
        rw [wac_flat_row reserved d hflat.1, hc]
        dsimp only [Except.map, Bind.bind, Except.bind]
        rw [ih hflat.2 cs hrest]
        rfl

/-- The first inner loop of `unnest_children` leaves a flat row
unchanged. -/
lemma unnestFold_flat (pn : PyStr) :
    ∀ (l : List (PyStr × RVal)) (acc : Row),
    l.all (fun kv => match kv.2 with | .sc _ => true | _ => false) = true →
    l.foldlM (unnestRowStep pn) acc = .ok acc := by
  intro l
  induction l with
  | nil => intro acc _; rfl
  | cons kv rest ih =>
    intro acc h
    rw [List.all_cons, Bool.and_eq_true] at h
    rw [List.foldlM_cons]
    rcases kv with ⟨k, v⟩
    rcases v with s | items | dd
    · dsimp only [unnestRowStep, Bind.bind, Except.bind]
      exact ih acc h.2
    · exact absurd h.1 Bool.false_ne_true
    · exact absurd h.1 Bool.false_ne_true

/-- The second inner loop of `unnest_children` gathers nothing from a
flat row. -/
lemma gatherRow_flat : ∀ (l : Row) (acc : List (PyStr × List PyStr)),
    flatRow l = true → gatherRow acc l = .ok acc := by
  intro l
  induction l with
  | nil => intro acc _; rfl
  | cons kv rest ih =>
    intro acc h
    unfold flatRow at h
    rw [List.all_cons, Bool.and_eq_true] at h
    unfold gatherRow
    rw [List.foldlM_cons]
    rcases kv with ⟨k, v⟩
    rcases v with s | items | dd
    · dsimp only
      rw [pure_bind]
      exact ih acc h.2
    · exact absurd h.1 Bool.false_ne_true
    · exact absurd h.1 Bool.false_ne_true

/-- The per-row pass of `unnest_children` on flat rows: every row is
kept as is and no child field names are recorded. -/
lemma rowsFold_flat (pn : PyStr) :
    ∀ (rs : List Row) (acc : List Row × List (PyStr × List PyStr)),
    rs.all flatRow = true →
    rs.foldlM (fun (acc : List Row × List (PyStr × List PyStr)) row => do
      let r1 ← unnestRow pn row
      let used2 ← gatherRow acc.2 r1
      pure (r1 :: acc.1, used2)) acc = .ok (rs.reverse ++ acc.1, acc.2) := by
  intro rs
  induction rs with
  | nil => intro acc _; rfl
  | cons r rest ih =>
    intro acc h
    rw [List.all_cons, Bool.and_eq_true] at h
    rw [List.foldlM_cons]
    have hur : unnestRow pn r = .ok r := unnestFold_flat pn r r h.1
    have hgr : gatherRow acc.2 r = .ok acc.2 := gatherRow_flat r acc.2 h.1
    have hstep : (do
        let r1 ← unnestRow pn r
        let used2 ← gatherRow acc.2 r1
        pure (r1 :: acc.1, used2) :
          Except PyErr (List Row × List (PyStr × List PyStr))) =
        .ok (r :: acc.1, acc.2) := by
      rw [hur]
      dsimp only [Bind.bind, Except.bind]
      rw [hgr]
      rfl
    try dsimp only
    rw [hstep]
    have hbind : ∀ (x : List Row × List (PyStr × List PyStr))
        (g : List Row × List (PyStr × List PyStr) →
          Except PyErr (List Row × List (PyStr × List PyStr))),
        ((Except.ok x : Except PyErr _) >>= g) = g x := fun x g => rfl
    rw [hbind]
    rw [ih (r :: acc.1, acc.2) h.2]
    simp


/-- C9: a flat record set (no nested mapping, no nested list values)
with no requested key and no forced key passes through the reshaper
unchanged: `walk_and_clean` canonicalizes field names only, and
`unnest_children` returns the rows as they are, assigns no primary key,
and produces no child record set. -/
theorem flat_reshape_roundtrip
    (parse : PyStr → Option PyDateTime) (today : Nat × Nat × Nat)
    (reserved : List PyStr) (data : List Row) (parent_name : PyStr)
    (hflat : data.all flatRow = true) :
    (∀ cleaned : List Row, data.mapM (cleanRowKeys reserved) = .ok cleaned →
      walk_and_clean reserved (RVal.lst (data.map RVal.dct)) =
        .ok (RVal.lst (cleaned.map RVal.dct))) ∧
    unnest_children parse today data parent_name Option.none false =
      .ok (data, Option.none, [], []) := by
  constructor
  · intro cleaned hm
    unfold walk_and_clean
    rw [wacList_flat reserved data hflat cleaned hm]
    rfl
  · unfold unnest_children
    have hinit : parent_table_init parse today data parent_name
        Option.none false = .ok ⟨parent_name, data, Option.none, Option.none⟩ :=
      rfl
    rw [hinit]
    have hb1 : ∀ (x : PT) (g : PT → Except PyErr (List Row × Option PyStr ×
        List (PyStr × List Row) × List (PyStr × PyStr))),
        ((Except.ok x : Except PyErr PT) >>= g) = g x := fun x g => rfl
    rw [hb1]
    try dsimp only
    rw [rowsFold_flat parent_name data ([], []) hflat]
    have hb2 : ∀ (x : List Row × List (PyStr × List PyStr))
        (g : List Row × List (PyStr × List PyStr) →
          Except PyErr (List Row × Option PyStr ×
            List (PyStr × List Row) × List (PyStr × PyStr))),
        ((Except.ok x : Except PyErr _) >>= g) = g x := fun x g => rfl
    rw [hb2]
    try dsimp only
    simp only [List.append_nil, List.reverse_reverse]
    rfl


theorem flat_reshape_roundtrip_witness :
    (∀ cleaned : List Row,
      ([[(pyS "a", RVal.sc (Scalar.int 2))]] : List Row).mapM
        (cleanRowKeys []) = .ok cleaned →
      walk_and_clean []
        (RVal.lst (([[(pyS "a", RVal.sc (Scalar.int 2))]] : List Row).map
          RVal.dct)) = .ok (RVal.lst (cleaned.map RVal.dct))) ∧
    unnest_children (fun _ => Option.none) (2000, 1, 1)
      [[(pyS "a", RVal.sc (Scalar.int 2))]] (pyS "t") Option.none false =
      .ok ([[(pyS "a", RVal.sc (Scalar.int 2))]], Option.none, [], []) :=
  flat_reshape_roundtrip (fun _ => Option.none) (2000, 1, 1) []
    [[(pyS "a", RVal.sc (Scalar.int 2))]] (pyS "t") (by rfl)


/-!
## Foreign-key stamping of extracted children
-/

/-- `stampRow` on a row holding the child field as a list of mappings
and the parent key field: the child field is popped and every child is
stamped with the parent key value under the foreign-key name. -/
lemma stampRow_on (cn fk pkf : PyStr) (r : Row) (items : List Row)
    (pkvr : RVal)
    (h1 : r.lookup cn = some (RVal.lst (items.map RVal.dct)))
    (h2 : r.lookup pkf = some pkvr) :
    stampRow cn fk pkf r =
      .ok (rpop r cn, items.map (fun d => rset d fk pkvr)) := by
  unfold stampRow
  rw [h1]
  dsimp only
  rw [h2]
  dsimp only [Bind.bind, Except.bind]
  have hmapm : ∀ (l : List Row),
      (l.map RVal.dct).mapM (fun child =>
        match child with
        | .dct d => Except.ok (rset d fk pkvr)
        | _ => Except.error
            (PyErr.typeError (pyS "child rows must be mappings"))) =
      .ok (l.map (fun d => rset d fk pkvr)) := by
    intro l
    induction l with
    | nil => rfl
    | cons d tl ih =>
      rw [List.map_cons, List.mapM_cons]
      dsimp only [Bind.bind, Except.bind]
      rw [ih]
      rfl
  rw [hmapm items]
  rfl

/-- The per-row fold of `processChildName`: rows lose the child field
(kept in order) and the stamped children accumulate left to right. -/
lemma stampFold (cn fk pkf : PyStr) (items : Row → List Row)
    (pkv : Row → RVal) :
    ∀ (rows : List Row) (acc : List Row × List Row),
    (∀ r ∈ rows, r.lookup cn = some (RVal.lst ((items r).map RVal.dct)) ∧
      r.lookup pkf = some (pkv r)) →
    rows.foldlM (fun (acc : List Row × List Row) row => do
      let (row2, cs) ← stampRow cn fk pkf row
      pure (row2 :: acc.1, acc.2 ++ cs)) acc =
    .ok ((rows.map (fun r => rpop r cn)).reverse ++ acc.1,
         acc.2 ++ rows.flatMap
           (fun r => (items r).map (fun d => rset d fk (pkv r)))) := by
  intro rows
  induction rows with
  | nil =>
    intro acc _
    simp only [List.map_nil, List.reverse_nil, List.nil_append,
      List.flatMap_nil, List.append_nil]
    rfl
  | cons r rest ih =>
    intro acc h
    have hr := h r (List.mem_cons_self _ _)
    rw [List.foldlM_cons]
    have hstamp := stampRow_on cn fk pkf r (items r) (pkv r) hr.1 hr.2
    have hstep : (do
        let (row2, cs) ← stampRow cn fk pkf r
        pure (row2 :: acc.1, acc.2 ++ cs) :
          Except PyErr (List Row × List Row)) =
        .ok (rpop r cn :: acc.1,
             acc.2 ++ (items r).map (fun d => rset d fk (pkv r))) := by
      rw [hstamp]
      rfl
    try dsimp only
    rw [hstep]
    have hb : ∀ (x : List Row × List Row)
        (g : List Row × List Row → Except PyErr (List Row × List Row)),
        ((Except.ok x : Except PyErr _) >>= g) = g x := fun x g => rfl
    rw [hb]
    rw [ih _ (fun r2 hr2 => h r2 (List.mem_cons_of_mem _ hr2))]
    simp [List.append_assoc]


/-- C8: for a nested-list field of a record set whose parent key is
already resolved, the reshaper picks as foreign-key name the first
candidate of `possible_fk_names` (parent-qualified requested name, then
`<parent>_id`, `_<parent>_id`, `parent_id`) not used by any child row —
failing fatally when every candidate is taken — stamps every child row
with its own parent row key value under that name, moves the children
into a child record set named after the field, and removes the field
from every parent row. -/
theorem unnest_children_fk_stamping
    (parse : PyStr → Option PyDateTime) (today : Nat × Nat × Nat)
    (parent_name : PyStr) (pk_name : Option PyStr)
    (st : UCState) (pk : UniqueKey) (cn : PyStr) (used : List PyStr)
    (hpk : st.pt.pk = some pk)
    (items : Row → List Row) (pkv : Row → RVal)
    (hrows : ∀ r ∈ st.pt.rows,
      r.lookup cn = some (RVal.lst ((items r).map RVal.dct)) ∧
      r.lookup pk.name = some (pkv r)) :
    (∀ fk, (possible_fk_names parent_name pk_name).find?
        (fun c => !used.contains c) = some fk →
      processChildName parse today (possible_fk_names parent_name pk_name) st
        (cn, used) = .ok
        ⟨{ st.pt with rows := st.pt.rows.map (fun r => rpop r cn) },
         st.children ++ [(cn, st.pt.rows.flatMap
           (fun r => (items r).map (fun d => rset d fk (pkv r))))],
         st.child_fk_names ++ [(cn, fk)]⟩) ∧
    ((possible_fk_names parent_name pk_name).find?
        (fun c => !used.contains c) = Option.none →
      processChildName parse today (possible_fk_names parent_name pk_name) st
        (cn, used) = .error (.exc
        (pyS "Cannot find unused field name in " ++ st.pt.name ++
         '.' :: cn ++ pyS " to use as foreign key"))) := by
  have hbP : ∀ (x : PT) (g : PT → Except PyErr UCState),
      ((pure x : Except PyErr PT) >>= g) = g x := fun x g => rfl
  have hbS : ∀ (x : PyStr) (g : PyStr → Except PyErr UCState),
      ((pure x : Except PyErr PyStr) >>= g) = g x := fun x g => rfl
  have hbU : ∀ (x : UniqueKey) (g : UniqueKey → Except PyErr UCState),
      ((pure x : Except PyErr UniqueKey) >>= g) = g x := fun x g => rfl
  have hbRR : ∀ (x : List Row × List Row)
      (g : List Row × List Row → Except PyErr UCState),
      ((Except.ok x : Except PyErr _) >>= g) = g x := fun x g => rfl
  constructor
  · intro fk hfk
    unfold processChildName
    try dsimp only
    rw [hpk]
    try dsimp only
    rw [hbP]
    try dsimp only
    rw [hfk]
    try dsimp only
    rw [hbS]
    try dsimp only
    rw [hpk]
    try dsimp only
    rw [hbU]
    try dsimp only
    rw [stampFold cn fk pk.name items pkv st.pt.rows ([], []) hrows]
    rw [hbRR]
    try dsimp only
    simp only [List.append_nil, List.reverse_reverse, List.nil_append]
    rfl
  · intro hfk
    unfold processChildName
    try dsimp only
    rw [hpk]
    try dsimp only
    rw [hbP]
    try dsimp only
    rw [hfk]
    rfl


/-- A one-row parent `{id: 1, cs: [{x: 5}]}` with resolved integer key. -/
def c8wSt : UCState :=
  ⟨⟨pyS "p",
    [[(pyS "id", RVal.sc (Scalar.int 1)),
      (pyS "cs", RVal.lst [RVal.dct [(pyS "x", RVal.sc (Scalar.int 5))]])]],
    some (pyS "id"), some ⟨pyS "id", STag.sInt, Scalar.int 1⟩⟩, [], []⟩

theorem unnest_children_fk_stamping_witness :
    (∀ fk, (possible_fk_names (pyS "p") Option.none).find?
        (fun c => !([pyS "x"]).contains c) = some fk →
      processChildName (fun _ => Option.none) (2000, 1, 1)
        (possible_fk_names (pyS "p") Option.none) c8wSt
        (pyS "cs", [pyS "x"]) = .ok
        ⟨{ c8wSt.pt with rows := c8wSt.pt.rows.map (fun r => rpop r (pyS "cs")) },
         c8wSt.children ++ [(pyS "cs", c8wSt.pt.rows.flatMap
           (fun r => ((fun (_ : Row) => [[(pyS "x", RVal.sc (Scalar.int 5))]]) r).map
             (fun d => rset d fk ((fun (_ : Row) => RVal.sc (Scalar.int 1)) r))))],
         c8wSt.child_fk_names ++ [(pyS "cs", fk)]⟩) ∧
    ((possible_fk_names (pyS "p") Option.none).find?
        (fun c => !([pyS "x"]).contains c) = Option.none →
      processChildName (fun _ => Option.none) (2000, 1, 1)
        (possible_fk_names (pyS "p") Option.none) c8wSt
        (pyS "cs", [pyS "x"]) = .error (.exc
        (pyS "Cannot find unused field name in " ++ c8wSt.pt.name ++
         '.' :: pyS "cs" ++ pyS " to use as foreign key"))) :=
  unnest_children_fk_stamping (fun _ => Option.none) (2000, 1, 1)
    (pyS "p") Option.none c8wSt ⟨pyS "id", STag.sInt, Scalar.int 1⟩
    (pyS "cs") [pyS "x"] rfl
    (fun _ => [[(pyS "x", RVal.sc (Scalar.int 5))]])
    (fun _ => RVal.sc (Scalar.int 1))
    (by
      intro r hr
      have hr2 : r ∈ [[(pyS "id", RVal.sc (Scalar.int 1)),
        (pyS "cs", RVal.lst [RVal.dct [(pyS "x", RVal.sc (Scalar.int 5))]])]] := hr
      rw [List.mem_singleton] at hr2
      subst hr2
      exact ⟨rfl, rfl⟩)

end DDLGen
